import Mathlib

/-!
Shallow embedding of the seaworthy-rate-engine backend.

The repository holds two revisions of the same `server.js`:
* the CRM-property-backed revision (`src/server.js`), which stores the
  checklist state as JSON text in a deal property and recovers mangled
  rich-text values via tag stripping and entity decoding, and
* the older in-memory revision (`src/unnamed/part_000`), which keeps the
  checklist state in a process-local `checklistStore` object.

Strings are modelled as `List Char`.  JSON values are modelled by the
inductive `Json`.  JavaScript numbers are modelled as integers (`Int`):
every number appearing in the checklist state is the literal `1`
(`version: 1`), and the modelled `JSON.parse` rejects fractional or
exponent literals instead of producing a floating-point value.  FRED rate
values, which genuinely use `parseFloat`, are modelled separately with
rationals.
-/

/-- JSON values, the image of JavaScript values under JSON.parse /
JSON.stringify.  Object members are kept in textual order; duplicate keys
are kept in the list and property access takes the last occurrence, which
matches the overwrite semantics of JavaScript object construction. -/
inductive Json where
  | null : Json
  | bool : Bool → Json
  | num : Int → Json
  | str : List Char → Json
  | arr : List Json → Json
  | obj : List (List Char × Json) → Json

/-- The `{` character, kept out of string literals. -/
def lbrace : Char := Char.ofNat 123

/-- The `}` character, kept out of string literals. -/
def rbrace : Char := Char.ofNat 125

/-- JSON whitespace (RFC 8259): space, tab, line feed, carriage return. -/
def isJsonWs (c : Char) : Bool :=
  c == ' ' || c == '\t' || c == '\n' || c == '\r'

/-- Skip JSON whitespace. -/
def skipWs (l : List Char) : List Char := l.dropWhile isJsonWs

/-- Whitespace trimmed by JavaScript `String.prototype.trim`: the common
ASCII whitespace plus vertical tab, form feed, no-break space and the BOM. -/
def isJsTrimWs (c : Char) : Bool :=
  c == ' ' || c == '\t' || c == '\n' || c == '\r' ||
  c == Char.ofNat 11 || c == Char.ofNat 12 || c == Char.ofNat 160 ||
  c == Char.ofNat 65279

/-- Model of JavaScript `str.trim()`. -/
def jsTrim (l : List Char) : List Char :=
  ((l.dropWhile isJsTrimWs).reverse.dropWhile isJsTrimWs).reverse

/-- Boolean test that `p` starts `l` (plain-text prefix check). -/
def leadsWith : List Char → List Char → Bool
  | [], _ => true
  | _ :: _, [] => false
  | p :: ps, c :: cs => p == c && leadsWith ps cs

/-- Value of a hexadecimal digit, as accepted in a JSON `\uXXXX` escape. -/
def hexVal? (c : Char) : Option Nat :=
  if '0' ≤ c ∧ c ≤ '9' then some (c.toNat - 48)
  else if 'a' ≤ c ∧ c ≤ 'f' then some (c.toNat - 87)
  else if 'A' ≤ c ∧ c ≤ 'F' then some (c.toNat - 55)
  else none

/-- Combined value of four hexadecimal digits of a `\uXXXX` escape. -/
def hexVal4 (a b c d : Char) : Option Nat :=
  (hexVal? a).bind fun x1 =>
    (hexVal? b).bind fun x2 =>
      (hexVal? c).bind fun x3 =>
        (hexVal? d).map fun x4 => ((x1 * 16 + x2) * 16 + x3) * 16 + x4

/-- The character denoted by a single-character escape, `none` when the
escape is not one of the named ones. -/
def escCharOf (e : Char) : Option Char :=
  if e = '"' then some '"'
  else if e = '\\' then some '\\'
  else if e = '/' then some '/'
  else if e = 'b' then some (Char.ofNat 8)
  else if e = 'f' then some (Char.ofNat 12)
  else if e = 'n' then some '\n'
  else if e = 'r' then some '\r'
  else if e = 't' then some '\t'
  else none

/-- Parse the body of a JSON string literal (the opening quote already
consumed), returning the decoded characters and the rest of the input.
Mirrors the string grammar enforced by `JSON.parse`: raw control
characters are rejected, the named escapes and `\uXXXX` are decoded.
`\uXXXX` codes in the surrogate range are outside this model (no input in
this development produces them) and make the parse fail. -/
def parseStringBody : List Char → Option (List Char × List Char)
  | [] => none
  | c :: r =>
    if c = '"' then some ([], r)
    else if c = '\\' then
      match r with
      | [] => none
      | e :: t =>
        if e = 'u' then
          match t with
          | a :: b :: c2 :: d :: t2 =>
            (hexVal4 a b c2 d).bind fun n =>
              if n < 55296 ∨ 57344 ≤ n then
                (parseStringBody t2).map (fun p => (Char.ofNat n :: p.1, p.2))
              else none
          | _ => none
        else
          (escCharOf e).bind fun ec =>
            (parseStringBody t).map (fun p => (ec :: p.1, p.2))
    else if c.toNat < 32 then none
    else (parseStringBody r).map (fun p => (c :: p.1, p.2))

/-- Decimal value of a digit run. -/
def digitsVal (l : List Char) : Nat :=
  l.foldl (fun a c => 10 * a + (c.toNat - 48)) 0

/-- Parse a JSON number at the head of the input.  Only the integer
fragment of the JSON number grammar is modelled: an optional minus sign
and a canonical digit run.  A fraction or exponent makes the modelled
parse fail (see the header comment on number modelling). -/
def parseNumber (l : List Char) : Option (Json × List Char) :=
  let sl : Bool × List Char := match l with | '-' :: t => (true, t) | _ => (false, l)
  let ds := sl.2.takeWhile Char.isDigit
  if ds = [] then none
  else if 2 ≤ ds.length ∧ ds.head? = some '0' then none
  else
    match sl.2.drop ds.length with
    | '.' :: _ => none
    | 'e' :: _ => none
    | 'E' :: _ => none
    | r =>
      some (Json.num (if sl.1 then -(digitsVal ds : Int) else (digitsVal ds : Int)), r)

/-- Parser modes: a JSON value, the member list of an object (positioned at
a key, after `{` and any whitespace, known not to be `}`), or the element
list of an array (positioned at a value, known not to be `]`). -/
inductive PMode where
  | val : PMode
  | mems : PMode
  | elems : PMode
  deriving DecidableEq, Repr

/-- Extend an object parse result by a leading member. -/
def objCons (k : List Char) (v : Json) : Json × List Char → Option (Json × List Char)
  | (Json.obj tl, r) => some (Json.obj ((k, v) :: tl), r)
  | _ => none

/-- Extend an array parse result by a leading element. -/
def arrCons (v : Json) : Json × List Char → Option (Json × List Char)
  | (Json.arr tl, r) => some (Json.arr (v :: tl), r)
  | _ => none

/-- Check the fixed tail of a keyword (`null`, `true`, `false`). -/
def keyTail (kw : List Char) (j : Json) (l : List Char) : Option (Json × List Char) :=
  if leadsWith kw l then some (j, l.drop kw.length) else none

/-- Fuel-driven recursive-descent core of the `JSON.parse` model.  The
fuel decreases by exactly one on every recursive call; every recursive
call consumes at least one character first, so `input.length + 1` fuel
always suffices. -/
def pc : Nat → PMode → List Char → Option (Json × List Char)
  | 0, _, _ => none
  | Nat.succ fuel, PMode.val, l =>
    match skipWs l with
    | [] => none
    | c :: r =>
      if c = 'n' then keyTail ['u', 'l', 'l'] Json.null r
      else if c = 't' then keyTail ['r', 'u', 'e'] (Json.bool true) r
      else if c = 'f' then keyTail ['a', 'l', 's', 'e'] (Json.bool false) r
      else if c = '"' then (parseStringBody r).map (fun p => (Json.str p.1, p.2))
      else if c = lbrace then
        match skipWs r with
        | [] => none
        | c2 :: r2 =>
          if c2 = rbrace then some (Json.obj [], r2)
          else pc fuel PMode.mems (c2 :: r2)
      else if c = '[' then
        match skipWs r with
        | [] => none
        | c2 :: r2 =>
          if c2 = ']' then some (Json.arr [], r2)
          else pc fuel PMode.elems (c2 :: r2)
      else parseNumber (c :: r)
  | Nat.succ fuel, PMode.mems, l =>
    match skipWs l with
    | [] => none
    | c :: r =>
      if c = '"' then
        (parseStringBody r).bind fun kr =>
          match skipWs kr.2 with
          | [] => none
          | c3 :: r3 =>
            if c3 = ':' then
              (pc fuel PMode.val r3).bind fun vr =>
                match skipWs vr.2 with
                | [] => none
                | c5 :: r5 =>
                  if c5 = ',' then (pc fuel PMode.mems r5).bind (objCons kr.1 vr.1)
                  else if c5 = rbrace then some (Json.obj [(kr.1, vr.1)], r5)
                  else none
            else none
      else none
  | Nat.succ fuel, PMode.elems, l =>
    (pc fuel PMode.val l).bind fun vr =>
      match skipWs vr.2 with
      | [] => none
      | c :: r2 =>
        if c = ',' then (pc fuel PMode.elems r2).bind (arrCons vr.1)
        else if c = ']' then some (Json.arr [vr.1], r2)
        else none

/-- Model of `JSON.parse`: parse one value and require the remainder to be
whitespace only.  `none` models a thrown `SyntaxError`. -/
def jsonParse (l : List Char) : Option Json :=
  match pc (l.length + 1) PMode.val l with
  | some (j, rest) => if skipWs rest = [] then some j else none
  | none => none

/-- Lowercase hexadecimal digit, as printed by `JSON.stringify` in
`\u00XX` escapes. -/
def hexChar (n : Nat) : Char :=
  if n < 10 then Char.ofNat (48 + n) else Char.ofNat (87 + n)

/-- Escape of one character inside a string literal, exactly as
`JSON.stringify` prints it: quote and backslash escaped, the five named
control escapes, `\u00XX` for the remaining control characters, and every
other character verbatim. -/
def escChar (c : Char) : List Char :=
  if c = '"' then ['\\', '"']
  else if c = '\\' then ['\\', '\\']
  else if c = Char.ofNat 8 then ['\\', 'b']
  else if c = '\t' then ['\\', 't']
  else if c = '\n' then ['\\', 'n']
  else if c = Char.ofNat 12 then ['\\', 'f']
  else if c = '\r' then ['\\', 'r']
  else if c.toNat < 32 then
    ['\\', 'u', '0', '0', hexChar (c.toNat / 16), hexChar (c.toNat % 16)]
  else [c]

/-- Escape a whole string, with an explicit continuation so that printed
text stays in right-nested cons/append form. -/
def escThen : List Char → List Char → List Char
  | [], rest => rest
  | c :: t, rest => escChar c ++ escThen t rest

/-- A JSON string literal followed by `rest`. -/
def strLit (s rest : List Char) : List Char :=
  '"' :: escThen s ('"' :: rest)

/-- The remaining members of an object after the first one: a comma, a
string key, a colon and a string value, repeated. -/
def memChain : List (List Char × List Char) → List Char → List Char
  | [], rest => rest
  | (k, v) :: tl, rest => ',' :: strLit k (':' :: strLit v (memChain tl rest))

/-- `JSON.stringify` of a string-to-string object (the `itemStatuses`
mapping), followed by `rest`. -/
def objLit : List (List Char × List Char) → List Char → List Char
  | [], rest => lbrace :: rbrace :: rest
  | (k, v) :: tl, rest => lbrace :: strLit k (':' :: strLit v (memChain tl (rbrace :: rest)))

/-- `JSON.stringify` of the `collateralType` slot: `null` or a string. -/
def ctLit : Option (List Char) → List Char → List Char
  | none, rest => 'n' :: 'u' :: 'l' :: 'l' :: rest
  | some s, rest => strLit s rest

/-- The four keys of the stored checklist state, in the insertion order of
the `state` object literal in the POST handler. -/
def versionKey : List Char := "version".toList
def updatedAtKey : List Char := "updatedAt".toList
def collateralTypeKey : List Char := "collateralType".toList
def itemStatusesKey : List Char := "itemStatuses".toList

/-- `JSON.stringify(state)` for the state object built by
`POST /hubspot/collateral-checklist`:
`{"version":1,"updatedAt":<u>,"collateralType":<c>,"itemStatuses":<kvs>}`. -/
def printState (u : List Char) (c : Option (List Char))
    (kvs : List (List Char × List Char)) : List Char :=
  lbrace :: strLit versionKey (':' :: '1' :: ',' ::
    strLit updatedAtKey (':' :: strLit u (',' ::
      strLit collateralTypeKey (':' :: ctLit c (',' ::
        strLit itemStatusesKey (':' :: objLit kvs [rbrace]))))))

/-- The item-status mapping as a JSON object value. -/
def mapStr (kvs : List (List Char × List Char)) : List (List Char × Json) :=
  kvs.map (fun p => (p.1, Json.str p.2))

/-- The `collateralType` slot as a JSON value. -/
def ctJson : Option (List Char) → Json
  | none => Json.null
  | some s => Json.str s

/-- The checklist state as a JSON value, the image of `printState` under
parsing. -/
def stateJson (u : List Char) (c : Option (List Char))
    (kvs : List (List Char × List Char)) : Json :=
  Json.obj [(versionKey, Json.num 1), (updatedAtKey, Json.str u),
            (collateralTypeKey, ctJson c), (itemStatusesKey, Json.obj (mapStr kvs))]

/-!
## Models of the rich-text recovery helpers (`server.js` lines 68-105)
-/

/-- Drop characters up to and including the first `>`; if there is none,
drop everything.  This is exactly what one match of the tag regex
`<\/?[^>]+(>|$)` consumes after its leading `<`. -/
def dropTag : List Char → List Char
  | [] => []
  | c :: r => if c = '>' then r else dropTag r

/-- Fuel-driven scan of `str.replace(/<\/?[^>]+(>|$)/g, "")`.  At a `<`
the regex matches iff at least one character follows and the next
character is not `>`; the match then extends up to and including the next
`>` (or to the end of the input).  A failed attempt at a `<` leaves the
`<` in place and the scan resumes one character later. -/
def stripTagsF : Nat → List Char → List Char
  | 0, l => l
  | Nat.succ fuel, l =>
    match l with
    | [] => []
    | c :: rest =>
      if c = '<' then
        match rest with
        | [] => ['<']
        | c2 :: _ =>
          if c2 = '>' then '<' :: stripTagsF fuel rest
          else stripTagsF fuel (dropTag rest)
      else c :: stripTagsF fuel rest

/-- Model of `stripHtmlTags` (the string case; the function returns
non-strings unchanged and is only applied to strings here). -/
def stripHtmlTags (l : List Char) : List Char := stripTagsF l.length l

/-- Fuel-driven scan of `str.replace(pat, rep)` with a global plain-text
pattern: scan left to right, replace each non-overlapping occurrence. -/
def replAllF (pat rep : List Char) : Nat → List Char → List Char
  | 0, l => l
  | Nat.succ fuel, l =>
    match l with
    | [] => []
    | c :: rest =>
      if pat ≠ [] ∧ leadsWith pat l then
        rep ++ replAllF pat rep fuel (l.drop pat.length)
      else c :: replAllF pat rep fuel rest

/-- Global plain-text replacement, the meaning of each
`.replace(/pat/g, rep)` step in `decodeHtmlEntities`. -/
def replaceAll (pat rep l : List Char) : List Char := replAllF pat rep l.length l

/-- Model of `decodeHtmlEntities` (string case): the seven global
replacements, in the order they appear in the source. -/
def decodeHtmlEntities (l : List Char) : List Char :=
  replaceAll ['&', 'g', 't', ';'] ['>']
    (replaceAll ['&', 'l', 't', ';'] ['<']
      (replaceAll ['&', 'a', 'm', 'p', ';'] ['&']
        (replaceAll ['&', 'a', 'p', 'o', 's', ';'] ['\'']
          (replaceAll ['&', '#', '3', '9', ';'] ['\'']
            (replaceAll ['&', '#', '3', '4', ';'] ['"']
              (replaceAll ['&', 'q', 'u', 'o', 't', ';'] ['"'] l))))))

/-- JavaScript truthiness of a JSON value: `null`, `false`, `0` and `""`
are falsy, everything else (including `[]` and the empty object) truthy. -/
def jsTruthy : Json → Bool
  | Json.null => false
  | Json.bool b => b
  | Json.num n => n ≠ 0
  | Json.str s => s ≠ []
  | Json.arr _ => true
  | Json.obj _ => true

/-- Model of `safeParseStateJson`.  The input is an arbitrary JavaScript
value (`none` standing for `undefined`); any non-string, any string that
trims to nothing, and any text that fails both parse attempts yield
`none`, which models the function returning `null`. -/
def safeParseStateJson : Option Json → Option Json
  | some (Json.str s) =>
    let trimmed := jsTrim s
    if trimmed = [] then none
    else
      match jsonParse trimmed with
      | some j => some j
      | none =>
        let noTags := jsTrim (stripHtmlTags trimmed)
        let decoded := jsTrim (decodeHtmlEntities noTags)
        jsonParse decoded
  | _ => none

/-- JavaScript property access `j.k` on a parsed JSON value: the last
member with the given key (later duplicate keys overwrite earlier ones at
object construction), `none` for a missing key or a non-object. -/
def jsGet (j : Json) (k : List Char) : Option Json :=
  match j with
  | Json.obj kvs => (kvs.reverse.find? (fun p => p.1 = k)).map Prod.snd
  | _ => none

/-- `x || y` on an optional JSON value: `y` when the value is missing or
falsy. -/
def jsOrElse (x : Option Json) (y : Json) : Json :=
  match x with
  | some j => if jsTruthy j then j else y
  | none => y

/-- The `itemStatuses` a checklist read extracts from a parse result:
`(safeParseStateJson(raw) || {}).itemStatuses || {}`
(`GET /hubspot/collateral-checklist`, lines 239-244). -/
def readItemStatuses (parsed : Option Json) : Json :=
  jsOrElse (jsGet (jsOrElse parsed (Json.obj [])) itemStatusesKey) (Json.obj [])

/-- Environment model of the store mangling the spec allows for: the
CRM's rich-text storage replacing every double quote by `&quot;`. -/
def mangleQuotes (l : List Char) : List Char :=
  l.flatMap (fun c => if c = '"' then ['&', 'q', 'u', 'o', 't', ';'] else [c])

theorem psb_quote (m : List Char) : parseStringBody ('"' :: m) = some ([], m) := by
  rw [parseStringBody.eq_def]; exact rfl

theorem psb_esc (e : Char) (t : List Char) (he : ¬e = 'u') :
    parseStringBody ('\\' :: e :: t) =
      (escCharOf e).bind fun ec =>
        (parseStringBody t).map (fun p => (ec :: p.1, p.2)) := by
  rw [parseStringBody.eq_def]
  simp only [if_true, if_false]
  rw [if_neg he, if_neg (show ¬('\\' = '"') by decide)]

theorem psb_escU (a b c2 d : Char) (t2 : List Char) :
    parseStringBody ('\\' :: 'u' :: a :: b :: c2 :: d :: t2) =
      ((hexVal4 a b c2 d).bind fun n =>
        if n < 55296 ∨ 57344 ≤ n then
          (parseStringBody t2).map (fun p => (Char.ofNat n :: p.1, p.2))
        else none) := by
  rw [parseStringBody.eq_def]
  simp only [if_true, if_false]
  rw [if_neg (show ¬('\\' = '"') by decide)]

theorem psb_plain (c : Char) (m : List Char) (h1 : ¬c = '"') (h2 : ¬c = '\\')
    (h8 : ¬c.toNat < 32) :
    parseStringBody (c :: m) = (parseStringBody m).map (fun p => (c :: p.1, p.2)) := by
  rw [parseStringBody.eq_def]
  simp only []
  rw [if_neg h1, if_neg h2, if_neg h8]


/-!
## Model of the CRM-backed server (`src/server.js`)
-/

/-- A CRM property value: HubSpot returns strings for deal properties; the
in-memory revision also PATCHes a boolean. -/
inductive PVal where
  | s : List Char → PVal
  | b : Bool → PVal
  deriving DecidableEq

instance : Inhabited PVal := ⟨PVal.b false⟩

/-- A deal record, as the set of its property values. -/
def pvalToJson : PVal → Json
  | PVal.s str => Json.str str
  | PVal.b bv => Json.bool bv

/-- `fetchDealProperties`: the CRM returns the requested properties that
have values; everything else is absent from `json.properties`. -/
def fetchDealProperties (store : List Char → Option PVal)
    (names : List (List Char)) : List Char → Option PVal :=
  fun p => if p ∈ names then store p else none

/-- The test `(!rawState || !String(rawState).trim())` on the raw primary
state value: `undefined` and `""` are falsy, and otherwise the trimmed
string rendering must be empty (a boolean renders as `"true"`/`"false"`). -/
def rawBlank : Option PVal → Bool
  | none => true
  | some (PVal.s str) => jsTrim str = []
  | some (PVal.b bv) => !bv

/-- `x || y || null` for the `collateralType` response field: the parsed
field when truthy, else the deal property when truthy, else null. -/
def jsOrOpt (x : Option Json) (y : Option Json) : Option Json :=
  match x with
  | some j => if jsTruthy j then some j else
      (match y with
       | some j2 => if jsTruthy j2 then some j2 else none
       | none => none)
  | none =>
      match y with
      | some j2 => if jsTruthy j2 then some j2 else none
      | none => none

/-- `isSaved` as computed by the GET handler:
`completeRaw === true || completeRaw === "true" || "TRUE" || "True"`. -/
def isSavedOf : Option PVal → Bool
  | some (PVal.b bv) => bv
  | some (PVal.s str) =>
      str = "true".toList ∨ str = "TRUE".toList ∨ str = "True".toList
  | none => false

/-- Everything `GET /hubspot/collateral-checklist` computes, plus the
trace fields `didSecondFetch` (was a second CRM fetch issued?) and
`rawUsed` (which raw text the state was parsed from). -/
structure GetChecklistResult where
  collateralType : Option Json
  itemStatuses : Json
  isSaved : Bool
  lastSavedAt : Option Json
  didSecondFetch : Bool
  rawUsed : Option PVal

/-- Model of `GET /hubspot/collateral-checklist` (`src/server.js` lines
209-266), for a deal whose properties are `store`, under the four
configured property names. -/
def collGet (store : List Char → Option PVal)
    (collTypeProp completeProp primary alt : List Char) : GetChecklistResult :=
  let props := fetchDealProperties store [collTypeProp, completeProp, primary]
  let rawState := props primary
  let doSecond : Bool := rawBlank rawState && !alt.isEmpty && !(alt == primary)
  let props2 := fetchDealProperties store [collTypeProp, completeProp, alt]
  let propsM : List Char → Option PVal :=
    if doSecond then
      fun p => match props2 p with
        | some v => some v
        | none => props p
    else props
  let rawState2 := if doSecond then props2 alt else rawState
  let parsed := jsOrElse (safeParseStateJson (rawState2.map pvalToJson)) (Json.obj [])
  { collateralType :=
      jsOrOpt (jsGet parsed collateralTypeKey) ((propsM collTypeProp).map pvalToJson)
    itemStatuses := jsOrElse (jsGet parsed itemStatusesKey) (Json.obj [])
    isSaved := isSavedOf (propsM completeProp)
    lastSavedAt :=
      match jsGet parsed updatedAtKey with
      | some j => if jsTruthy j then some j else none
      | none => none
    didSecondFetch := doSecond
    rawUsed := rawState2 }

/-- The JSON body the GET handler responds with. -/
def collGetJson (r : GetChecklistResult) : Json :=
  Json.obj [("collateralType".toList, (r.collateralType).getD Json.null),
            ("itemStatuses".toList, r.itemStatuses),
            ("isSaved".toList, Json.bool r.isSaved),
            ("lastSavedAt".toList, (r.lastSavedAt).getD Json.null)]

/-- The deal-property object built by the POST handler's
`buildPropertiesFn` (`src/server.js` lines 288-310): always the state
JSON under the chosen state property, the collateral type when truthy,
and the complete flag plus overall status exactly as the `markComplete`
flag dictates.  Later entries overwrite earlier ones on lookup, like
assignments to a JavaScript object. -/
def postProperties (stateProp : List Char) (stateText : List Char)
    (collateralType : Option (List Char)) (markComplete : Bool)
    (collTypeProp completeProp overallProp : List Char) :
    List (List Char × PVal) :=
  [(stateProp, PVal.s stateText)] ++
  (match collateralType with
   | some ct => if ct.isEmpty then [] else [(collTypeProp, PVal.s ct)]
   | none => []) ++
  (if markComplete then
    [(completeProp, PVal.s "true".toList), (overallProp, PVal.s "Complete".toList)]
  else [(completeProp, PVal.s "false".toList)])

/-- Last-wins lookup in a property list, the value a JavaScript object
built from these assignments holds. -/
def lookupLast (props : List (List Char × PVal)) (p : List Char) : Option PVal :=
  (props.reverse.find? (fun q => q.1 = p)).map Prod.snd

/-- Effect of a successful CRM PATCH on the deal's properties. -/
def applyPatch (store : List Char → Option PVal)
    (props : List (List Char × PVal)) : List Char → Option PVal :=
  fun p =>
    match lookupLast props p with
    | some v => some v
    | none => store p

/-!
## Model of the write-path fallback (`patchWithStatePropertyFallback`)
-/

/-- Why the upstream CRM rejected a PATCH.  The category is upstream-side
ground truth; the server code only ever sees `ok`, `status` and `text`. -/
inductive ErrCat where
  | missingProperty : ErrCat
  | otherFailure : ErrCat

/-- An upstream PATCH outcome: the code-visible `ok`/`status`/`text`
triple plus the upstream-side cause. -/
structure UpstreamPatchResult where
  ok : Bool
  status : Nat
  text : List Char
  cause : ErrCat

/-- ASCII lowering, the effect of `.toLowerCase()` on the error text. -/
def toLowerList (l : List Char) : List Char := l.map Char.toLower

/-- `String.prototype.includes`: `pat` occurs somewhere in the text. -/
def hasSub (pat : List Char) : List Char → Bool
  | [] => leadsWith pat []
  | c :: rest => leadsWith pat (c :: rest) || hasSub pat rest

/-- The substring heuristic deciding a fallback retry: the primary
property name occurs in the error text, or the word `property` occurs in
the lowercased error text. -/
def retryHeuristic (primaryName text : List Char) : Bool :=
  hasSub primaryName text || hasSub "property".toList (toLowerList text)

/-- Model of `patchWithStatePropertyFallback` (`src/server.js` lines
160-199): result, `statePropertyUsed`, and how many PATCH calls were
issued.  `patch` is the upstream oracle, from the state-property name the
write would use to the outcome. -/
def patchWithStatePropertyFallback (primary alt : List Char)
    (patch : List Char → UpstreamPatchResult) :
    UpstreamPatchResult × List Char × Nat :=
  let p := patch primary
  if p.ok then (p, primary, 1)
  else if alt ≠ [] ∧ alt ≠ primary then
    if retryHeuristic primary p.text then (patch alt, alt, 2)
    else (p, primary, 1)
  else (p, primary, 1)

/-!
## Model of the FRED rate endpoints
-/

/-- One observation of a FRED series: its `value` field, absent (`null`)
or a string. -/
structure FredObs where
  value : Option (List Char)

/-- An upstream response for one series: HTTP status and the
`observations` array (absent when the JSON has none). -/
structure FredResp where
  status : Nat
  observations : Option (List FredObs)

/-- `res.ok` of the fetch API: status in the 2xx range. -/
def fredOk (r : FredResp) : Bool := 200 ≤ r.status && r.status < 300

/-- Exponent suffix of a `parseFloat` literal: optional sign and a
digit run; no digits means the exponent is not consumed. -/
def expVal (l : List Char) : Option Int :=
  let sl : Int × List Char :=
    match l with
    | '-' :: t => (-1, t)
    | '+' :: t => (1, t)
    | _ => (1, l)
  let ds := sl.2.takeWhile Char.isDigit
  if ds.isEmpty then none else some (sl.1 * (digitsVal ds : Int))

/-- `10^e` over the rationals, for an integer exponent. -/
def qpow10 (e : Int) : ℚ :=
  if 0 ≤ e then ((10 : ℚ) ^ e.toNat) else 1 / ((10 : ℚ) ^ (-e).toNat)

/-- Model of JavaScript `parseFloat`: skip leading whitespace, optional
sign, longest decimal-literal prefix; `none` models `NaN` (no digits at
all).  Values are exact rationals rather than IEEE doubles: the claims
settled against this model concern which fields are null, not rounding.
The `Infinity` keyword is outside the model. -/
def jsParseFloat (l : List Char) : Option ℚ :=
  let l1 := l.dropWhile isJsTrimWs
  let sl : ℚ × List Char :=
    match l1 with
    | '-' :: t => (-1, t)
    | '+' :: t => (1, t)
    | _ => (1, l1)
  let ds := sl.2.takeWhile Char.isDigit
  let rest := sl.2.drop ds.length
  let fl : List Char × List Char :=
    match rest with
    | '.' :: t => (t.takeWhile Char.isDigit, t.drop (t.takeWhile Char.isDigit).length)
    | _ => ([], rest)
  if ds.isEmpty && fl.1.isEmpty then none
  else
    let mantissa : ℚ := (digitsVal ds : ℚ) + (digitsVal fl.1 : ℚ) / ((10 : ℚ) ^ fl.1.length)
    let e : Int :=
      match fl.2 with
      | 'e' :: t => (expVal t).getD 0
      | 'E' :: t => (expVal t).getD 0
      | _ => 0
    some (sl.1 * mantissa * qpow10 e)

/-- The value `fetchLatestFredValue` extracts once the HTTP call
succeeded: null for a missing observation, a null value, the sentinel
`"."`, or a parse failure; otherwise the parsed number. -/
def fredValueOf (r : FredResp) : Option ℚ :=
  match (r.observations.getD []).head? with
  | none => none
  | some obs =>
    match obs.value with
    | none => none
    | some v => if v = ".".toList then none else jsParseFloat v

/-- Model of `fetchLatestFredValue` (`src/server.js` lines 346-369):
a non-2xx upstream status throws (`Except.error`); otherwise the
soft-null extraction above. -/
def fetchLatestFredValue (r : FredResp) : Except Unit (Option Rat) :=
  if fredOk r then Except.ok (fredValueOf r) else Except.error ()

/-- Outcome of `GET /hubspot/rates`: an overall 500, or the four-field
snapshot. -/
inductive RatesResp where
  | error500 : RatesResp
  | okBody : Option Rat → Option Rat → Option Rat → Option Rat → RatesResp

/-- Model of `GET /hubspot/rates` (`src/server.js` lines 371-399): fan
out the four series fetches; any rejection makes the whole endpoint
answer 500 with an error object and no rate fields. -/
def ratesHandler (r1 r2 r3 r4 : FredResp) : RatesResp :=
  match fetchLatestFredValue r1, fetchLatestFredValue r2,
      fetchLatestFredValue r3, fetchLatestFredValue r4 with
  | Except.ok a, Except.ok b, Except.ok c, Except.ok d => RatesResp.okBody a b c d
  | _, _, _, _ => RatesResp.error500

/-!
## Model of `POST /hubspot/update-deal-rates`
-/

/-- Request body of the relay endpoint, each field possibly absent. -/
structure UpdateBody where
  dealId : Option (List Char)
  properties : Option (List (List Char × Json))

/-- The validation guard: absent body destructures to undefined fields;
`!dealId` is also true for an empty string; a present `properties`
object is always truthy. -/
def updateBodyInvalid : Option UpdateBody → Bool
  | none => true
  | some b =>
    (match b.dealId with
     | none => true
     | some s => s.isEmpty) || b.properties.isNone

/-- Model of `POST /hubspot/update-deal-rates` (`src/server.js` lines
401-430): returns the HTTP status and whether any upstream CRM call was
made. -/
def updateDealRates (patchRes : UpstreamPatchResult)
    (body : Option UpdateBody) : Nat × Bool :=
  if updateBodyInvalid body then (400, false)
  else (if patchRes.ok then 200 else patchRes.status, true)

/-!
## Model of the in-memory revision (`src/unnamed/part_000`)
-/

/-- One `checklistStore` entry of the in-memory revision. -/
structure MemEntry where
  collateralType : Option (List Char)
  itemStatuses : Json
  overallStatus : List Char
  isSaved : Bool

/-- The GET handler's JSON response for a stored entry. -/
def memEntryJson (e : MemEntry) : Json :=
  Json.obj [("collateralType".toList,
              match e.collateralType with
              | some str => Json.str str
              | none => Json.null),
            ("itemStatuses".toList, e.itemStatuses),
            ("overallStatus".toList, Json.str e.overallStatus),
            ("isSaved".toList, Json.bool e.isSaved)]

/-- Model of the in-memory `GET /hubspot/collateral-checklist`: the
stored entry, or the literal empty object when the deal is unknown. -/
def memGetResponse (store : List Char → Option MemEntry) (dealId : List Char) : Json :=
  match store dealId with
  | none => Json.obj []
  | some e => memEntryJson e

/-- Model of the in-memory `POST /hubspot/collateral-checklist` store
write (`src/unnamed/part_000` lines 69-74): unconditionally records
`isSaved: true`. -/
def memPost (store : List Char → Option MemEntry) (dealId : List Char)
    (collateralType : Option (List Char)) (itemStatuses : Option Json)
    (overallStatus : Option (List Char)) : List Char → Option MemEntry :=
  fun d =>
    if d = dealId then
      some { collateralType :=
               match collateralType with
               | some ct => if ct.isEmpty then none else some ct
               | none => none
             itemStatuses :=
               match itemStatuses with
               | some j => if jsTruthy j then j else Json.obj []
               | none => Json.obj []
             overallStatus :=
               match overallStatus with
               | some os => if os.isEmpty then "Complete".toList else os
               | none => "Complete".toList
             isSaved := true }
    else store d

/-- The deal-property object the in-memory revision PATCHes upstream on
every save (`src/unnamed/part_000` lines 84-91): the dropdown status and
the boolean complete flag, unconditionally. -/
def memPatchProperties (overallStatus : Option (List Char)) : List (List Char × PVal) :=
  [("deal_collateral_dropdown".toList, PVal.s
      (match overallStatus with
       | some os => if os.isEmpty then "Complete".toList else os
       | none => "Complete".toList)),
   ("collateral_checklist_complete".toList, PVal.b true)]

/-- The soft-null condition of one series, read off the claim: the most
recent observation is missing, its value is null, the sentinel `"."`, or
fails to parse as a number. -/
def badObs (r : FredResp) : Prop :=
  match (r.observations.getD []).head? with
  | none => True
  | some obs =>
    match obs.value with
    | none => True
    | some v => v = ".".toList ∨ jsParseFloat v = none

theorem char_ofNat_toNat (c : Char) (h : c.toNat < 55296) : Char.ofNat c.toNat = c := by
  have hv : Nat.isValidChar c.toNat := Or.inl h
  unfold Char.ofNat
  rw [dif_pos hv]
  unfold Char.ofNatAux
  apply Char.eq_of_val_eq
  simp [UInt32.ofNat']
  apply UInt32.eq_of_toBitVec_eq
  apply BitVec.eq_of_toNat_eq
  simp [Char.toNat]
  rfl

theorem hexVal?_hexChar : ∀ n < 16, hexVal? (hexChar n) = some n := by decide

theorem hexVal?_zero : hexVal? '0' = some 0 := by decide

theorem hexVal4_00 (hi lo : Nat) (hhi : hi < 16) (hlo : lo < 16) :
    hexVal4 '0' '0' (hexChar hi) (hexChar lo) = some (((0 * 16 + 0) * 16 + hi) * 16 + lo) := by
  unfold hexVal4
  rw [hexVal?_zero, hexVal?_hexChar hi hhi, hexVal?_hexChar lo hlo]
  rfl

theorem psb_escChar (c : Char) (m : List Char) :
    parseStringBody (escChar c ++ m) =
      (parseStringBody m).map (fun p => (c :: p.1, p.2)) := by
  by_cases h1 : c = '"'
  · subst h1
    show parseStringBody ('\\' :: '"' :: m) = _
    rw [psb_esc _ _ (by decide)]
    rfl
  by_cases h2 : c = '\\'
  · subst h2
    show parseStringBody ('\\' :: '\\' :: m) = _
    rw [psb_esc _ _ (by decide)]
    rfl
  by_cases h3 : c = Char.ofNat 8
  · subst h3
    show parseStringBody ('\\' :: 'b' :: m) = _
    rw [psb_esc _ _ (by decide)]
    rfl
  by_cases h4 : c = '\t'
  · subst h4
    show parseStringBody ('\\' :: 't' :: m) = _
    rw [psb_esc _ _ (by decide)]
    rfl
  by_cases h5 : c = '\n'
  · subst h5
    show parseStringBody ('\\' :: 'n' :: m) = _
    rw [psb_esc _ _ (by decide)]
    rfl
  by_cases h6 : c = Char.ofNat 12
  · subst h6
    show parseStringBody ('\\' :: 'f' :: m) = _
    rw [psb_esc _ _ (by decide)]
    rfl
  by_cases h7 : c = '\r'
  · subst h7
    show parseStringBody ('\\' :: 'r' :: m) = _
    rw [psb_esc _ _ (by decide)]
    rfl
  by_cases h8 : c.toNat < 32
  · have hesc : escChar c =
        ['\\', 'u', '0', '0', hexChar (c.toNat / 16), hexChar (c.toNat % 16)] := by
      unfold escChar
      rw [if_neg h1, if_neg h2, if_neg h3, if_neg h4, if_neg h5, if_neg h6, if_neg h7,
        if_pos h8]
    rw [hesc]
    show parseStringBody ('\\' :: 'u' :: '0' :: '0' :: hexChar (c.toNat / 16) ::
      hexChar (c.toNat % 16) :: m) = _
    rw [psb_escU, hexVal4_00 _ _ (by omega) (by omega)]
    have hn : ((0 * 16 + 0) * 16 + c.toNat / 16) * 16 + c.toNat % 16 = c.toNat := by omega
    rw [hn, Option.some_bind, if_pos (Or.inl (by omega : c.toNat < 55296)),
      char_ofNat_toNat c (by omega)]
  · have hesc : escChar c = [c] := by
      unfold escChar
      rw [if_neg h1, if_neg h2, if_neg h3, if_neg h4, if_neg h5, if_neg h6, if_neg h7,
        if_neg h8]
    rw [hesc]
    show parseStringBody (c :: m) = _
    rw [psb_plain c m h1 h2 h8]

theorem psb_escThen (s rest : List Char) :
    parseStringBody (escThen s ('"' :: rest)) = some (s, rest) := by
  induction s with
  | nil => exact psb_quote rest
  | cons c t ih =>
    show parseStringBody (escChar c ++ escThen t ('"' :: rest)) = _
    rw [psb_escChar, ih]
    rfl

theorem skipWs_cons (c : Char) (l : List Char) (h : isJsonWs c = false) :
    skipWs (c :: l) = c :: l := by
  simp [skipWs, List.dropWhile_cons, h]

theorem pc_val_str (g : Nat) (m : List Char) :
    pc (g + 1) PMode.val ('"' :: m) =
      (parseStringBody m).map (fun p => (Json.str p.1, p.2)) := by
  rw [pc.eq_def]
  simp only []
  rw [skipWs_cons _ _ (by decide)]
  simp only [if_true, if_false]
  rw [if_neg (show ¬('"' = 'n') by decide), if_neg (show ¬('"' = 't') by decide),
    if_neg (show ¬('"' = 'f') by decide)]

theorem pc_val_null (g : Nat) (m : List Char) :
    pc (g + 1) PMode.val ('n' :: 'u' :: 'l' :: 'l' :: m) = some (Json.null, m) := by
  rw [pc.eq_def]
  simp only []
  rw [skipWs_cons _ _ (by decide)]
  simp only [if_true, if_false]
  exact rfl

theorem pc_val_one (g : Nat) (m : List Char) :
    pc (g + 1) PMode.val ('1' :: ',' :: m) = some (Json.num 1, ',' :: m) := by
  rw [pc.eq_def]
  simp only []
  rw [skipWs_cons _ _ (by decide)]
  simp only [if_true, if_false]
  rw [if_neg (show ¬('1' = lbrace) by decide), if_neg (show ¬('1' = '[') by decide)]
  exact rfl

theorem pc_val_objEmpty (g : Nat) (m : List Char) :
    pc (g + 1) PMode.val (lbrace :: rbrace :: m) = some (Json.obj [], m) := by
  rw [pc.eq_def]
  simp only []
  rw [skipWs_cons _ _ (by decide)]
  simp only [if_true, if_false]
  rw [skipWs_cons _ _ (by decide)]
  exact rfl

theorem pc_val_objQuote (g : Nat) (x : List Char) :
    pc (g + 1) PMode.val (lbrace :: '"' :: x) = pc g PMode.mems ('"' :: x) := by
  rw [pc.eq_def]
  simp only []
  rw [skipWs_cons _ _ (by decide)]
  simp only [if_true, if_false]
  rw [skipWs_cons _ _ (by decide)]
  exact rfl

theorem pc_mems_key (g : Nat) (k x : List Char) :
    pc (g + 1) PMode.mems (strLit k (':' :: x)) =
      (pc g PMode.val x).bind fun vr =>
        match skipWs vr.2 with
        | [] => none
        | c5 :: r5 =>
          if c5 = ',' then (pc g PMode.mems r5).bind (objCons k vr.1)
          else if c5 = rbrace then some (Json.obj [(k, vr.1)], r5)
          else none := by
  show pc (g + 1) PMode.mems ('"' :: escThen k ('"' :: ':' :: x)) = _
  rw [pc.eq_def]
  simp only []
  rw [skipWs_cons _ _ (by decide)]
  simp only [if_true, if_false]
  rw [psb_escThen]
  rw [Option.some_bind]
  show (match skipWs (':' :: x) with
    | [] => none
    | c3 :: r3 =>
      if c3 = ':' then
        (pc g PMode.val r3).bind fun vr =>
          match skipWs vr.2 with
          | [] => none
          | c5 :: r5 =>
            if c5 = ',' then (pc g PMode.mems r5).bind (objCons k vr.1)
            else if c5 = rbrace then some (Json.obj [(k, vr.1)], r5)
            else none
      else none) = _
  rw [skipWs_cons _ _ (by decide)]
  exact rfl

theorem pc_val_strLit (g : Nat) (s rest : List Char) :
    pc (g + 1) PMode.val (strLit s rest) = some (Json.str s, rest) := by
  show pc (g + 1) PMode.val ('"' :: escThen s ('"' :: rest)) = _
  rw [pc_val_str, psb_escThen]
  rfl

theorem pc_memChain (tl : List (List Char × List Char)) :
    ∀ (fuel : Nat) (k v tail : List Char),
    pc (fuel + (2 * tl.length + 2)) PMode.mems
        (strLit k (':' :: strLit v (memChain tl (rbrace :: tail)))) =
      some (Json.obj ((k, Json.str v) :: mapStr tl), tail) := by
  induction tl with
  | nil =>
    intro fuel k v tail
    have hF : fuel + (2 * ([] : List (List Char × List Char)).length + 2) = (fuel + 1) + 1 := by
      simp
    rw [hF, pc_mems_key]
    rw [show memChain [] (rbrace :: tail) = rbrace :: tail from rfl]
    rw [pc_val_strLit, Option.some_bind]
    show (match skipWs (rbrace :: tail) with
      | [] => none
      | c5 :: r5 =>
        if c5 = ',' then (pc (fuel + 1) PMode.mems r5).bind (objCons k (Json.str v))
        else if c5 = rbrace then some (Json.obj [(k, Json.str v)], r5)
        else none) = _
    rw [skipWs_cons _ _ (by decide)]
    exact rfl
  | cons kv t ih =>
    obtain ⟨k2, v2⟩ := kv
    intro fuel k v tail
    have hF : fuel + (2 * ((k2, v2) :: t).length + 2) = (fuel + (2 * t.length + 3)) + 1 := by
      simp [List.length_cons]
      omega
    rw [hF]
    rw [show memChain ((k2, v2) :: t) (rbrace :: tail) =
      ',' :: strLit k2 (':' :: strLit v2 (memChain t (rbrace :: tail))) from rfl]
    rw [pc_mems_key]
    have hG : fuel + (2 * t.length + 3) = (fuel + (2 * t.length + 2)) + 1 := by omega
    rw [hG, pc_val_strLit, Option.some_bind]
    show (match skipWs (',' :: strLit k2 (':' :: strLit v2 (memChain t (rbrace :: tail)))) with
      | [] => none
      | c5 :: r5 =>
        if c5 = ',' then
          (pc ((fuel + (2 * t.length + 2)) + 1) PMode.mems r5).bind (objCons k (Json.str v))
        else if c5 = rbrace then some (Json.obj [(k, Json.str v)], r5)
        else none) = _
    rw [skipWs_cons _ _ (by decide)]
    show (pc ((fuel + (2 * t.length + 2)) + 1) PMode.mems
        (strLit k2 (':' :: strLit v2 (memChain t (rbrace :: tail))))).bind
      (objCons k (Json.str v)) = _
    have hI : (fuel + (2 * t.length + 2)) + 1 = (fuel + 1) + (2 * t.length + 2) := by omega
    rw [hI, ih (fuel + 1) k2 v2 tail, Option.some_bind]
    rw [objCons.eq_def]
    exact rfl

theorem mapStr_cons (k v : List Char) (tl : List (List Char × List Char)) :
    mapStr ((k, v) :: tl) = (k, Json.str v) :: mapStr tl := by
  simp [mapStr]

theorem pc_objLit (kvs : List (List Char × List Char)) (fuel : Nat) (tail : List Char) :
    pc (fuel + (2 * kvs.length + 1)) PMode.val (objLit kvs tail) =
      some (Json.obj (mapStr kvs), tail) := by
  cases kvs with
  | nil =>
    have hF : fuel + (2 * ([] : List (List Char × List Char)).length + 1) = fuel + 1 := by
      simp
    rw [hF]
    show pc (fuel + 1) PMode.val (lbrace :: rbrace :: tail) = _
    rw [pc_val_objEmpty]
    rfl
  | cons kv tl =>
    obtain ⟨k, v⟩ := kv
    have hF : fuel + (2 * ((k, v) :: tl).length + 1) = (fuel + (2 * tl.length + 2)) + 1 := by
      simp [List.length_cons]
      omega
    rw [hF, mapStr_cons]
    show pc ((fuel + (2 * tl.length + 2)) + 1) PMode.val
      (lbrace :: '"' :: escThen k ('"' :: ':' :: strLit v (memChain tl (rbrace :: tail)))) = _
    rw [pc_val_objQuote]
    exact pc_memChain tl fuel k v tail

theorem pc_memState3 (kvs : List (List Char × List Char)) (fuel : Nat) :
    pc (fuel + (2 * kvs.length + 2)) PMode.mems
        (strLit itemStatusesKey (':' :: objLit kvs [rbrace])) =
      some (Json.obj [(itemStatusesKey, Json.obj (mapStr kvs))], []) := by
  have hF : fuel + (2 * kvs.length + 2) = (fuel + (2 * kvs.length + 1)) + 1 := by omega
  rw [hF, pc_mems_key, pc_objLit kvs fuel [rbrace], Option.some_bind]
  show (match skipWs (rbrace :: ([] : List Char)) with
    | [] => none
    | c5 :: r5 =>
      if c5 = ',' then
        (pc (fuel + (2 * kvs.length + 1)) PMode.mems r5).bind
          (objCons itemStatusesKey (Json.obj (mapStr kvs)))
      else if c5 = rbrace then some (Json.obj [(itemStatusesKey, Json.obj (mapStr kvs))], r5)
      else none) = _
  rw [skipWs_cons _ _ (by decide)]
  exact rfl

theorem pc_memState2 (c : Option (List Char)) (kvs : List (List Char × List Char))
    (fuel : Nat) :
    pc (fuel + (2 * kvs.length + 3)) PMode.mems
        (strLit collateralTypeKey (':' :: ctLit c (',' ::
          strLit itemStatusesKey (':' :: objLit kvs [rbrace])))) =
      some (Json.obj [(collateralTypeKey, ctJson c),
        (itemStatusesKey, Json.obj (mapStr kvs))], []) := by
  have hF : fuel + (2 * kvs.length + 3) = (fuel + (2 * kvs.length + 2)) + 1 := by omega
  rw [hF, pc_mems_key]
  cases c with
  | none =>
    rw [show ctLit none (',' :: strLit itemStatusesKey (':' :: objLit kvs [rbrace])) =
      'n' :: 'u' :: 'l' :: 'l' ::
        (',' :: strLit itemStatusesKey (':' :: objLit kvs [rbrace])) from rfl]
    have hG : fuel + (2 * kvs.length + 2) = (fuel + (2 * kvs.length + 1)) + 1 := by omega
    rw [hG, pc_val_null, Option.some_bind]
    show (match skipWs (',' :: strLit itemStatusesKey (':' :: objLit kvs [rbrace])) with
      | [] => none
      | c5 :: r5 =>
        if c5 = ',' then
          (pc ((fuel + (2 * kvs.length + 1)) + 1) PMode.mems r5).bind
            (objCons collateralTypeKey Json.null)
        else if c5 = rbrace then some (Json.obj [(collateralTypeKey, Json.null)], r5)
        else none) = _
    rw [skipWs_cons _ _ (by decide)]
    show (pc ((fuel + (2 * kvs.length + 1)) + 1) PMode.mems
        (strLit itemStatusesKey (':' :: objLit kvs [rbrace]))).bind
      (objCons collateralTypeKey Json.null) = _
    have hH : (fuel + (2 * kvs.length + 1)) + 1 = fuel + (2 * kvs.length + 2) := by omega
    rw [hH, pc_memState3 kvs fuel, Option.some_bind, objCons.eq_def]
    exact rfl
  | some s =>
    rw [show ctLit (some s) (',' :: strLit itemStatusesKey (':' :: objLit kvs [rbrace])) =
      strLit s (',' :: strLit itemStatusesKey (':' :: objLit kvs [rbrace])) from rfl]
    have hG : fuel + (2 * kvs.length + 2) = (fuel + (2 * kvs.length + 1)) + 1 := by omega
    rw [hG, pc_val_strLit, Option.some_bind]
    show (match skipWs (',' :: strLit itemStatusesKey (':' :: objLit kvs [rbrace])) with
      | [] => none
      | c5 :: r5 =>
        if c5 = ',' then
          (pc ((fuel + (2 * kvs.length + 1)) + 1) PMode.mems r5).bind
            (objCons collateralTypeKey (Json.str s))
        else if c5 = rbrace then some (Json.obj [(collateralTypeKey, Json.str s)], r5)
        else none) = _
    rw [skipWs_cons _ _ (by decide)]
    show (pc ((fuel + (2 * kvs.length + 1)) + 1) PMode.mems
        (strLit itemStatusesKey (':' :: objLit kvs [rbrace]))).bind
      (objCons collateralTypeKey (Json.str s)) = _
    have hH : (fuel + (2 * kvs.length + 1)) + 1 = fuel + (2 * kvs.length + 2) := by omega
    rw [hH, pc_memState3 kvs fuel, Option.some_bind, objCons.eq_def]
    exact rfl

theorem pc_memState1 (u : List Char) (c : Option (List Char))
    (kvs : List (List Char × List Char)) (fuel : Nat) :
    pc (fuel + (2 * kvs.length + 4)) PMode.mems
        (strLit updatedAtKey (':' :: strLit u (',' ::
          strLit collateralTypeKey (':' :: ctLit c (',' ::
            strLit itemStatusesKey (':' :: objLit kvs [rbrace])))))) =
      some (Json.obj [(updatedAtKey, Json.str u), (collateralTypeKey, ctJson c),
        (itemStatusesKey, Json.obj (mapStr kvs))], []) := by
  have hF : fuel + (2 * kvs.length + 4) = (fuel + (2 * kvs.length + 3)) + 1 := by omega
  rw [hF, pc_mems_key]
  have hG : fuel + (2 * kvs.length + 3) = (fuel + (2 * kvs.length + 2)) + 1 := by omega
  rw [hG, pc_val_strLit, Option.some_bind]
  show (match skipWs (',' :: strLit collateralTypeKey (':' :: ctLit c (',' ::
      strLit itemStatusesKey (':' :: objLit kvs [rbrace])))) with
    | [] => none
    | c5 :: r5 =>
      if c5 = ',' then
        (pc ((fuel + (2 * kvs.length + 2)) + 1) PMode.mems r5).bind
          (objCons updatedAtKey (Json.str u))
      else if c5 = rbrace then some (Json.obj [(updatedAtKey, Json.str u)], r5)
      else none) = _
  rw [skipWs_cons _ _ (by decide)]
  show (pc ((fuel + (2 * kvs.length + 2)) + 1) PMode.mems
      (strLit collateralTypeKey (':' :: ctLit c (',' ::
        strLit itemStatusesKey (':' :: objLit kvs [rbrace]))))).bind
    (objCons updatedAtKey (Json.str u)) = _
  have hH : (fuel + (2 * kvs.length + 2)) + 1 = fuel + (2 * kvs.length + 3) := by omega
  rw [hH, pc_memState2 c kvs fuel, Option.some_bind, objCons.eq_def]

theorem pc_memState0 (u : List Char) (c : Option (List Char))
    (kvs : List (List Char × List Char)) (fuel : Nat) :
    pc (fuel + (2 * kvs.length + 5)) PMode.mems
        (strLit versionKey (':' :: '1' :: ',' ::
          strLit updatedAtKey (':' :: strLit u (',' ::
            strLit collateralTypeKey (':' :: ctLit c (',' ::
              strLit itemStatusesKey (':' :: objLit kvs [rbrace]))))))) =
      some (Json.obj [(versionKey, Json.num 1), (updatedAtKey, Json.str u),
        (collateralTypeKey, ctJson c), (itemStatusesKey, Json.obj (mapStr kvs))], []) := by
  have hF : fuel + (2 * kvs.length + 5) = (fuel + (2 * kvs.length + 4)) + 1 := by omega
  rw [hF, pc_mems_key]
  have hG : fuel + (2 * kvs.length + 4) = (fuel + (2 * kvs.length + 3)) + 1 := by omega
  rw [hG, pc_val_one, Option.some_bind]
  show (match skipWs (',' :: strLit updatedAtKey (':' :: strLit u (',' ::
      strLit collateralTypeKey (':' :: ctLit c (',' ::
        strLit itemStatusesKey (':' :: objLit kvs [rbrace])))))) with
    | [] => none
    | c5 :: r5 =>
      if c5 = ',' then
        (pc ((fuel + (2 * kvs.length + 3)) + 1) PMode.mems r5).bind
          (objCons versionKey (Json.num 1))
      else if c5 = rbrace then some (Json.obj [(versionKey, Json.num 1)], r5)
      else none) = _
  rw [skipWs_cons _ _ (by decide)]
  show (pc ((fuel + (2 * kvs.length + 3)) + 1) PMode.mems
      (strLit updatedAtKey (':' :: strLit u (',' ::
        strLit collateralTypeKey (':' :: ctLit c (',' ::
          strLit itemStatusesKey (':' :: objLit kvs [rbrace]))))))).bind
    (objCons versionKey (Json.num 1)) = _
  have hH : (fuel + (2 * kvs.length + 3)) + 1 = fuel + (2 * kvs.length + 4) := by omega
  rw [hH, pc_memState1 u c kvs fuel, Option.some_bind, objCons.eq_def]

theorem pc_printState (u : List Char) (c : Option (List Char))
    (kvs : List (List Char × List Char)) (fuel : Nat) :
    pc (fuel + (2 * kvs.length + 6)) PMode.val (printState u c kvs) =
      some (stateJson u c kvs, []) := by
  have hF : fuel + (2 * kvs.length + 6) = (fuel + (2 * kvs.length + 5)) + 1 := by omega
  rw [hF]
  show pc ((fuel + (2 * kvs.length + 5)) + 1) PMode.val
    (lbrace :: '"' :: escThen versionKey ('"' :: ':' :: '1' :: ',' ::
      strLit updatedAtKey (':' :: strLit u (',' ::
        strLit collateralTypeKey (':' :: ctLit c (',' ::
          strLit itemStatusesKey (':' :: objLit kvs [rbrace]))))))) = _
  rw [pc_val_objQuote]
  exact pc_memState0 u c kvs fuel

example : stripHtmlTags "ab<c>d".toList = "abd".toList := rfl
example : jsonParse "\"ab\"".toList = some (Json.str ['a', 'b']) := rfl
example : safeParseStateJson (some (Json.str "  ".toList)) = none := rfl
example : jsonParse (printState "t".toList none [(['a'], ['x'])]) =
    some (stateJson "t".toList none [(['a'], ['x'])]) := rfl

theorem escThen_length_ge (s r : List Char) : r.length ≤ (escThen s r).length := by
  induction s with
  | nil => simp [escThen]
  | cons c t ih =>
    show r.length ≤ (escChar c ++ escThen t r).length
    rw [List.length_append]
    omega

theorem strLit_length_ge (s rest : List Char) :
    rest.length + 2 ≤ (strLit s rest).length := by
  show rest.length + 2 ≤ ('"' :: escThen s ('"' :: rest)).length
  have h := escThen_length_ge s ('"' :: rest)
  simp only [List.length_cons] at *
  omega

theorem objLit_length_ge (kvs : List (List Char × List Char)) (tail : List Char) :
    tail.length + (2 * kvs.length + 2) ≤ (objLit kvs tail).length := by
  cases kvs with
  | nil =>
    show tail.length + (2 * ([] : List (List Char × List Char)).length + 2) ≤
      (lbrace :: rbrace :: tail).length
    simp
  | cons kv tl =>
    obtain ⟨k, v⟩ := kv
    show tail.length + (2 * ((k, v) :: tl).length + 2) ≤
      (lbrace :: strLit k (':' :: strLit v (memChain tl (rbrace :: tail)))).length
    have hm : ∀ (tl2 : List (List Char × List Char)) (rest : List Char),
        rest.length + 2 * tl2.length ≤ (memChain tl2 rest).length := by
      intro tl2
      induction tl2 with
      | nil => intro rest; simp [memChain]
      | cons kv2 t2 ih2 =>
        obtain ⟨k2, v2⟩ := kv2
        intro rest
        show rest.length + 2 * ((k2, v2) :: t2).length ≤
          (',' :: strLit k2 (':' :: strLit v2 (memChain t2 rest))).length
        have h1 := strLit_length_ge k2 (':' :: strLit v2 (memChain t2 rest))
        have h2 := strLit_length_ge v2 (memChain t2 rest)
        have h3 := ih2 rest
        simp only [List.length_cons] at *
        omega
    have h1 := strLit_length_ge k (':' :: strLit v (memChain tl (rbrace :: tail)))
    have h2 := strLit_length_ge v (memChain tl (rbrace :: tail))
    have h3 := hm tl (rbrace :: tail)
    simp only [List.length_cons] at *
    omega

theorem ctLit_length_ge (c : Option (List Char)) (rest : List Char) :
    rest.length + 2 ≤ (ctLit c rest).length := by
  cases c with
  | none => simp [ctLit]
  | some s => exact strLit_length_ge s rest

theorem printState_length_ge (u : List Char) (c : Option (List Char))
    (kvs : List (List Char × List Char)) :
    2 * kvs.length + 6 ≤ (printState u c kvs).length := by
  have h4 := objLit_length_ge kvs [rbrace]
  have h3 := strLit_length_ge itemStatusesKey (':' :: objLit kvs [rbrace])
  have h2 := ctLit_length_ge c
    (',' :: strLit itemStatusesKey (':' :: objLit kvs [rbrace]))
  have h1 := strLit_length_ge collateralTypeKey (':' :: ctLit c
    (',' :: strLit itemStatusesKey (':' :: objLit kvs [rbrace])))
  have h0 := strLit_length_ge u (',' :: strLit collateralTypeKey (':' :: ctLit c
    (',' :: strLit itemStatusesKey (':' :: objLit kvs [rbrace]))))
  have hu := strLit_length_ge updatedAtKey (':' :: strLit u
    (',' :: strLit collateralTypeKey (':' :: ctLit c
      (',' :: strLit itemStatusesKey (':' :: objLit kvs [rbrace])))))
  have hv := strLit_length_ge versionKey (':' :: '1' :: ',' ::
    strLit updatedAtKey (':' :: strLit u
      (',' :: strLit collateralTypeKey (':' :: ctLit c
        (',' :: strLit itemStatusesKey (':' :: objLit kvs [rbrace]))))))
  show 2 * kvs.length + 6 ≤ (lbrace :: strLit versionKey (':' :: '1' :: ',' ::
    strLit updatedAtKey (':' :: strLit u
      (',' :: strLit collateralTypeKey (':' :: ctLit c
        (',' :: strLit itemStatusesKey (':' :: objLit kvs [rbrace]))))))).length
  simp only [List.length_cons] at *
  omega

theorem jsonParse_printState (u : List Char) (c : Option (List Char))
    (kvs : List (List Char × List Char)) :
    jsonParse (printState u c kvs) = some (stateJson u c kvs) := by
  unfold jsonParse
  have hlen := printState_length_ge u c kvs
  have hF : (printState u c kvs).length + 1 =
      ((printState u c kvs).length + 1 - (2 * kvs.length + 6)) + (2 * kvs.length + 6) := by
    omega
  rw [hF, pc_printState]
  exact rfl

theorem escThen_suffix (s r : List Char) : r <:+ escThen s r := by
  induction s with
  | nil => exact List.suffix_rfl
  | cons c t ih =>
    show r <:+ escChar c ++ escThen t r
    exact ih.trans (List.suffix_append _ _)

theorem strLit_suffix (s rest : List Char) : rest <:+ strLit s rest := by
  show rest <:+ '"' :: escThen s ('"' :: rest)
  have h1 : rest <:+ '"' :: rest := ⟨['"'], rfl⟩
  have h2 := escThen_suffix s ('"' :: rest)
  exact (h1.trans h2).trans ⟨['"'], rfl⟩

theorem memChain_suffix (tl : List (List Char × List Char)) (rest : List Char) :
    rest <:+ memChain tl rest := by
  induction tl with
  | nil => exact List.suffix_rfl
  | cons kv t ih =>
    obtain ⟨k, v⟩ := kv
    show rest <:+ ',' :: strLit k (':' :: strLit v (memChain t rest))
    have h1 := strLit_suffix v (memChain t rest)
    have h2 := strLit_suffix k (':' :: strLit v (memChain t rest))
    exact ((((ih.trans h1).trans ⟨[':'], rfl⟩).trans h2).trans ⟨[','], rfl⟩)

theorem objLit_suffix (kvs : List (List Char × List Char)) (tail : List Char) :
    tail <:+ objLit kvs tail := by
  cases kvs with
  | nil => exact ⟨[lbrace, rbrace], rfl⟩
  | cons kv tl =>
    obtain ⟨k, v⟩ := kv
    show tail <:+ lbrace :: strLit k (':' :: strLit v (memChain tl (rbrace :: tail)))
    have h0 : tail <:+ rbrace :: tail := ⟨[rbrace], rfl⟩
    have h1 := memChain_suffix tl (rbrace :: tail)
    have h2 := strLit_suffix v (memChain tl (rbrace :: tail))
    have h3 := strLit_suffix k (':' :: strLit v (memChain tl (rbrace :: tail)))
    exact ((((((h0.trans h1).trans h2).trans ⟨[':'], rfl⟩).trans h3)).trans ⟨[lbrace], rfl⟩)

theorem printState_suffix (u : List Char) (c : Option (List Char))
    (kvs : List (List Char × List Char)) : [rbrace] <:+ printState u c kvs := by
  have hct : ∀ rest, rest <:+ ctLit c rest := by
    intro rest
    cases c with
    | none => exact ⟨['n', 'u', 'l', 'l'], rfl⟩
    | some s => exact strLit_suffix s rest
  have h4 := objLit_suffix kvs [rbrace]
  have h3 := strLit_suffix itemStatusesKey (':' :: objLit kvs [rbrace])
  have h2 := hct (',' :: strLit itemStatusesKey (':' :: objLit kvs [rbrace]))
  have h1 := strLit_suffix collateralTypeKey (':' :: ctLit c
    (',' :: strLit itemStatusesKey (':' :: objLit kvs [rbrace])))
  have h0 := strLit_suffix u (',' :: strLit collateralTypeKey (':' :: ctLit c
    (',' :: strLit itemStatusesKey (':' :: objLit kvs [rbrace]))))
  have hu := strLit_suffix updatedAtKey (':' :: strLit u
    (',' :: strLit collateralTypeKey (':' :: ctLit c
      (',' :: strLit itemStatusesKey (':' :: objLit kvs [rbrace])))))
  have hv := strLit_suffix versionKey (':' :: '1' :: ',' ::
    strLit updatedAtKey (':' :: strLit u
      (',' :: strLit collateralTypeKey (':' :: ctLit c
        (',' :: strLit itemStatusesKey (':' :: objLit kvs [rbrace]))))))
  show [rbrace] <:+ lbrace :: strLit versionKey (':' :: '1' :: ',' ::
    strLit updatedAtKey (':' :: strLit u
      (',' :: strLit collateralTypeKey (':' :: ctLit c
        (',' :: strLit itemStatusesKey (':' :: objLit kvs [rbrace]))))))
  refine List.IsSuffix.trans ?_ ⟨[lbrace], rfl⟩
  refine List.IsSuffix.trans ?_ hv
  refine List.IsSuffix.trans ?_ ⟨[':', '1', ','], rfl⟩
  refine List.IsSuffix.trans ?_ hu
  refine List.IsSuffix.trans ?_ ⟨[':'], rfl⟩
  refine List.IsSuffix.trans ?_ h0
  refine List.IsSuffix.trans ?_ ⟨[','], rfl⟩
  refine List.IsSuffix.trans ?_ h1
  refine List.IsSuffix.trans ?_ ⟨[':'], rfl⟩
  refine List.IsSuffix.trans ?_ h2
  refine List.IsSuffix.trans ?_ ⟨[','], rfl⟩
  refine List.IsSuffix.trans ?_ h3
  refine List.IsSuffix.trans ?_ ⟨[':'], rfl⟩
  exact h4

theorem jsTrim_eq_self (c0 : Char) (t pre : List Char) (c1 : Char)
    (hhead : isJsTrimWs c0 = false) (hlast : isJsTrimWs c1 = false)
    (hshape : c0 :: t = pre ++ [c1]) : jsTrim (c0 :: t) = c0 :: t := by
  unfold jsTrim
  have h1 : (c0 :: t).dropWhile isJsTrimWs = c0 :: t := by
    rw [List.dropWhile_cons, hhead]
    simp
  rw [h1, hshape]
  have h2 : (pre ++ [c1]).reverse = c1 :: pre.reverse := by simp
  rw [h2, List.dropWhile_cons, hlast]
  simp

theorem jsTrim_printState (u : List Char) (c : Option (List Char))
    (kvs : List (List Char × List Char)) :
    jsTrim (printState u c kvs) = printState u c kvs := by
  obtain ⟨pre, hpre⟩ := printState_suffix u c kvs
  have hshape : lbrace :: strLit versionKey (':' :: '1' :: ',' ::
      strLit updatedAtKey (':' :: strLit u (',' ::
        strLit collateralTypeKey (':' :: ctLit c (',' ::
          strLit itemStatusesKey (':' :: objLit kvs [rbrace])))))) = pre ++ [rbrace] :=
    hpre.symm
  exact jsTrim_eq_self lbrace _ pre rbrace (by decide) (by decide) hshape

theorem printState_ne_nil (u : List Char) (c : Option (List Char))
    (kvs : List (List Char × List Char)) : ¬printState u c kvs = [] :=
  List.cons_ne_nil _ _

theorem safeParse_printState (u : List Char) (c : Option (List Char))
    (kvs : List (List Char × List Char)) :
    safeParseStateJson (some (Json.str (printState u c kvs))) =
      some (stateJson u c kvs) := by
  unfold safeParseStateJson
  simp only []
  rw [jsTrim_printState, if_neg (printState_ne_nil u c kvs), jsonParse_printState]

theorem read_stateJson (u : List Char) (c : Option (List Char))
    (kvs : List (List Char × List Char)) :
    readItemStatuses (some (stateJson u c kvs)) = Json.obj (mapStr kvs) := by
  unfold readItemStatuses jsOrElse jsGet stateJson
  simp [jsTruthy, itemStatusesKey, collateralTypeKey, updatedAtKey, versionKey]

theorem mangle_nil : mangleQuotes [] = [] := rfl

theorem mangle_cons (c : Char) (t : List Char) :
    mangleQuotes (c :: t) =
      (if c = '"' then ['&', 'q', 'u', 'o', 't', ';'] else [c]) ++ mangleQuotes t := by
  simp [mangleQuotes]

theorem mangle_append (a b : List Char) :
    mangleQuotes (a ++ b) = mangleQuotes a ++ mangleQuotes b := by
  simp [mangleQuotes]

theorem replAllF_nil (pat rep : List Char) (fuel : Nat) :
    replAllF pat rep fuel [] = [] := by
  cases fuel <;> rfl

theorem replAllF_unquot : ∀ (l : List Char) (fuel : Nat),
    (mangleQuotes l).length ≤ fuel → '&' ∉ l →
    replAllF ['&', 'q', 'u', 'o', 't', ';'] ['"'] fuel (mangleQuotes l) = l := by
  intro l
  induction l with
  | nil => intro fuel _ _; rw [mangle_nil, replAllF_nil]
  | cons c t ih =>
    intro fuel hfuel hamp
    have hampt : '&' ∉ t := fun h => hamp (List.mem_cons_of_mem _ h)
    have hampc : ¬c = '&' := fun h => hamp (h ▸ List.mem_cons_self _ _)
    by_cases hc : c = '"'
    · subst hc
      have hm : mangleQuotes ('"' :: t) =
          '&' :: 'q' :: 'u' :: 'o' :: 't' :: ';' :: mangleQuotes t := by
        rw [mangle_cons, if_pos rfl]
        rfl
      rw [hm] at hfuel ⊢
      simp only [List.length_cons] at hfuel
      obtain ⟨f1, rfl⟩ : ∃ f1, fuel = f1 + 1 := ⟨fuel - 1, by omega⟩
      rw [replAllF.eq_def]
      simp only []
      rw [if_pos ⟨by decide, by simp [leadsWith]⟩]
      show '"' :: replAllF ['&', 'q', 'u', 'o', 't', ';'] ['"'] f1
        (('&' :: 'q' :: 'u' :: 'o' :: 't' :: ';' :: mangleQuotes t).drop 6) = '"' :: t
      rw [show ('&' :: 'q' :: 'u' :: 'o' :: 't' :: ';' :: mangleQuotes t).drop 6 =
        mangleQuotes t by simp]
      rw [ih f1 (by omega) hampt]
    · have hm : mangleQuotes (c :: t) = c :: mangleQuotes t := by
        rw [mangle_cons, if_neg hc]
        rfl
      rw [hm] at hfuel ⊢
      simp only [List.length_cons] at hfuel
      obtain ⟨f1, rfl⟩ : ∃ f1, fuel = f1 + 1 := ⟨fuel - 1, by omega⟩
      rw [replAllF.eq_def]
      simp only []
      rw [if_neg]
      · rw [ih f1 (by omega) hampt]
      · rintro ⟨-, hB⟩
        simp only [leadsWith, Bool.and_eq_true, beq_iff_eq] at hB
        exact hampc hB.1.symm

theorem replAllF_amp (pr rep : List Char) : ∀ (l : List Char) (fuel : Nat),
    l.length ≤ fuel → '&' ∉ l → replAllF ('&' :: pr) rep fuel l = l := by
  intro l
  induction l with
  | nil => intro fuel _ _; rw [replAllF_nil]
  | cons c t ih =>
    intro fuel hfuel hamp
    have hampt : '&' ∉ t := fun h => hamp (List.mem_cons_of_mem _ h)
    have hampc : ¬c = '&' := fun h => hamp (h ▸ List.mem_cons_self _ _)
    simp only [List.length_cons] at hfuel
    obtain ⟨f1, rfl⟩ : ∃ f1, fuel = f1 + 1 := ⟨fuel - 1, by omega⟩
    rw [replAllF.eq_def]
    simp only []
    rw [if_neg]
    · rw [ih f1 (by omega) hampt]
    · rintro ⟨-, hB⟩
      simp only [leadsWith, Bool.and_eq_true, beq_iff_eq] at hB
      exact hampc hB.1.symm

theorem decode_mangle (l : List Char) (hamp : '&' ∉ l) :
    decodeHtmlEntities (mangleQuotes l) = l := by
  unfold decodeHtmlEntities replaceAll
  rw [replAllF_unquot l _ le_rfl hamp]
  rw [replAllF_amp _ _ l _ le_rfl hamp, replAllF_amp _ _ l _ le_rfl hamp,
    replAllF_amp _ _ l _ le_rfl hamp, replAllF_amp _ _ l _ le_rfl hamp,
    replAllF_amp _ _ l _ le_rfl hamp, replAllF_amp _ _ l _ le_rfl hamp]

theorem stripTagsF_id : ∀ (l : List Char) (fuel : Nat),
    l.length ≤ fuel → '<' ∉ l → stripTagsF fuel l = l := by
  intro l
  induction l with
  | nil => intro fuel _ _; cases fuel <;> rfl
  | cons c t ih =>
    intro fuel hfuel hlt
    have hltt : '<' ∉ t := fun h => hlt (List.mem_cons_of_mem _ h)
    have hltc : ¬c = '<' := fun h => hlt (h ▸ List.mem_cons_self _ _)
    simp only [List.length_cons] at hfuel
    obtain ⟨f1, rfl⟩ : ∃ f1, fuel = f1 + 1 := ⟨fuel - 1, by omega⟩
    rw [stripTagsF.eq_def]
    simp only []
    rw [if_neg hltc, ih f1 (by omega) hltt]

theorem stripHtmlTags_id (l : List Char) (hlt : '<' ∉ l) : stripHtmlTags l = l :=
  stripTagsF_id l l.length le_rfl hlt

theorem mangle_no_lt (l : List Char) (hlt : '<' ∉ l) : '<' ∉ mangleQuotes l := by
  intro hmem
  unfold mangleQuotes at hmem
  rw [List.mem_flatMap] at hmem
  obtain ⟨a, ha, hx⟩ := hmem
  by_cases hq : a = '"'
  · rw [if_pos hq] at hx
    simp at hx
  · rw [if_neg hq] at hx
    simp at hx
    exact hlt (hx ▸ ha)

theorem pc_mems_amp (g : Nat) (t : List Char) :
    pc (g + 1) PMode.mems ('&' :: t) = none := by
  rw [pc.eq_def]
  simp only []
  rw [skipWs_cons _ _ (by decide)]
  exact rfl

theorem pc_val_braceAmp (g : Nat) (t : List Char) :
    pc (g + 2) PMode.val (lbrace :: '&' :: t) = none := by
  rw [pc.eq_def]
  simp only []
  rw [skipWs_cons _ _ (by decide)]
  simp only [if_true, if_false]
  rw [skipWs_cons _ _ (by decide)]
  show (if ('&' : Char) = rbrace then some (Json.obj [], t)
    else pc (g + 1) PMode.mems ('&' :: t)) = none
  rw [if_neg (by decide), pc_mems_amp]

theorem jsonParse_braceAmp (t : List Char) : jsonParse (lbrace :: '&' :: t) = none := by
  unfold jsonParse
  rw [show (lbrace :: '&' :: t).length + 1 = (t.length + 1) + 2 by
    simp only [List.length_cons]]
  rw [pc_val_braceAmp]

theorem mangle_printState_head (u : List Char) (c : Option (List Char))
    (kvs : List (List Char × List Char)) :
    ∃ t, mangleQuotes (printState u c kvs) = lbrace :: '&' :: t := by
  refine ⟨'q' :: 'u' :: 'o' :: 't' :: ';' :: mangleQuotes (escThen versionKey ('"' ::
    ':' :: '1' :: ',' :: strLit updatedAtKey (':' :: strLit u (',' ::
      strLit collateralTypeKey (':' :: ctLit c (',' ::
        strLit itemStatusesKey (':' :: objLit kvs [rbrace]))))))), ?_⟩
  show mangleQuotes (lbrace :: '"' :: escThen versionKey ('"' ::
    ':' :: '1' :: ',' :: strLit updatedAtKey (':' :: strLit u (',' ::
      strLit collateralTypeKey (':' :: ctLit c (',' ::
        strLit itemStatusesKey (':' :: objLit kvs [rbrace]))))))) = _
  rw [mangle_cons, if_neg (by decide), mangle_cons, if_pos rfl]
  rfl

theorem safeParse_mangled (u : List Char) (c : Option (List Char))
    (kvs : List (List Char × List Char))
    (hlt : '<' ∉ printState u c kvs) (hamp : '&' ∉ printState u c kvs) :
    safeParseStateJson (some (Json.str (mangleQuotes (printState u c kvs)))) =
      some (stateJson u c kvs) := by
  obtain ⟨t, hhead⟩ := mangle_printState_head u c kvs
  obtain ⟨pre, hpre⟩ := printState_suffix u c kvs
  have hlast : mangleQuotes (printState u c kvs) = mangleQuotes pre ++ [rbrace] := by
    rw [← hpre, mangle_append]
    rw [show mangleQuotes [rbrace] = [rbrace] from rfl]
  have hshape : lbrace :: '&' :: t = mangleQuotes pre ++ [rbrace] := by
    rw [← hhead, hlast]
  have htrim : jsTrim (mangleQuotes (printState u c kvs)) =
      mangleQuotes (printState u c kvs) := by
    rw [hhead]
    exact jsTrim_eq_self lbrace _ (mangleQuotes pre) rbrace (by decide) (by decide) hshape
  unfold safeParseStateJson
  simp only []
  rw [htrim, if_neg (show ¬mangleQuotes (printState u c kvs) = [] from by
    rw [hhead]; exact List.cons_ne_nil _ _)]
  rw [show jsonParse (mangleQuotes (printState u c kvs)) = none from by
    rw [hhead]; exact jsonParse_braceAmp t]
  rw [stripHtmlTags_id _ (mangle_no_lt _ hlt), htrim, decode_mangle _ hamp,
    jsTrim_printState, jsonParse_printState]

set_option maxRecDepth 10000

/-- C1: a checklist write followed by a read for the same deal returns the
written `itemStatuses` content.  Unmangled storage round-trips
unconditionally; when the store mangles quoting (every `"` becomes
`&quot;`), the JSON-recovery transform restores the written content
provided the serialized state text contains no `<` and no `&`
character. -/
theorem c1_write_read_roundtrip (u : List Char) (c : Option (List Char))
    (kvs : List (List Char × List Char)) :
    readItemStatuses (safeParseStateJson (some (Json.str (printState u c kvs)))) =
      Json.obj (mapStr kvs) ∧
    ('<' ∉ printState u c kvs → '&' ∉ printState u c kvs →
      readItemStatuses (safeParseStateJson (some (Json.str (mangleQuotes
        (printState u c kvs))))) = Json.obj (mapStr kvs)) := by
  refine ⟨?_, fun hlt hamp => ?_⟩
  · rw [safeParse_printState, read_stateJson]
  · rw [safeParse_mangled u c kvs hlt hamp, read_stateJson]

/-- C1 counterexample: for the written state with
`itemStatuses = {"a": "<"}`, quote-mangled storage does not round-trip:
the tag-stripping pass of the recovery transform consumes everything from
the `<` onward, the recovered text no longer parses, and the read returns
`{}` instead of the written mapping. -/
theorem c1_roundtrip_counterexample :
    readItemStatuses (safeParseStateJson (some (Json.str (mangleQuotes
      (printState ['t'] none [(['a'], ['<'])]))))) ≠
      Json.obj (mapStr [(['a'], ['<'])]) := by
  intro h
  have h0 : (Json.obj [] : Json) = Json.obj (mapStr [(['a'], ['<'])]) :=
    Eq.trans (by rfl) h
  simp [mapStr] at h0

/-- C1 witness: the mangled round-trip at a concrete benign state. -/
theorem c1_write_read_roundtrip_witness :
    readItemStatuses (safeParseStateJson (some (Json.str (mangleQuotes
      (printState ['t'] none [(['a'], ['o', 'k'])]))))) =
      Json.obj (mapStr [(['a'], ['o', 'k'])]) :=
  (c1_write_read_roundtrip ['t'] none [(['a'], ['o', 'k'])]).2 (by decide) (by decide)

theorem lookupLast_postProps_complete_false (sp txt : List Char)
    (ct : Option (List Char)) (ctp cpp ovp : List Char) :
    lookupLast (postProperties sp txt ct false ctp cpp ovp) cpp =
      some (PVal.s "false".toList) := by
  unfold lookupLast postProperties
  rw [show (if (false : Bool) then
      [(cpp, PVal.s "true".toList), (ovp, PVal.s "Complete".toList)]
    else [(cpp, PVal.s "false".toList)]) = [(cpp, PVal.s "false".toList)] from rfl]
  rw [List.reverse_append, List.reverse_append]
  rw [show ([(cpp, PVal.s "false".toList)] : List (List Char × PVal)).reverse =
    [(cpp, PVal.s "false".toList)] from rfl]
  rw [List.singleton_append]
  rw [List.find?_cons_of_pos _ (by simp)]
  rfl

theorem collGet_isSaved (store : List Char → Option PVal)
    (ctp cpp primary alt : List Char) :
    (collGet store ctp cpp primary alt).isSaved = isSavedOf (store cpp) := by
  unfold collGet fetchDealProperties
  simp only []
  rw [apply_ite (fun f : List Char → Option PVal => f cpp)]
  have m1 : (cpp ∈ [ctp, cpp, alt]) = True := by simp
  have m2 : (cpp ∈ [ctp, cpp, primary]) = True := by simp
  simp only [m1, m2, if_true]
  cases hcp : store cpp <;> simp

/-- C2 (amended): in the CRM-backed revision, a successful checklist write
with `markComplete` false or absent stores `"false"` into the complete
property, so the next read reports `isSaved = false`, whatever the prior
store held and whichever state property the write used. -/
theorem c2_partial_save_isSaved_false (store : List Char → Option PVal)
    (stateProp stateText : List Char) (ct : Option (List Char))
    (ctp cpp ovp primary alt : List Char) :
    (collGet (applyPatch store
        (postProperties stateProp stateText ct false ctp cpp ovp))
      ctp cpp primary alt).isSaved = false := by
  rw [collGet_isSaved]
  show isSavedOf (applyPatch store
    (postProperties stateProp stateText ct false ctp cpp ovp) cpp) = false
  unfold applyPatch
  rw [lookupLast_postProps_complete_false]
  exact rfl

/-- C2 counterexample: in the in-memory revision a checklist write never
yields `isSaved = false` on the next read: the store write hardcodes
`isSaved: true`, so a write without any completion signal still reads
back `isSaved = true`. -/
theorem c2_inmemory_counterexample :
    jsGet (memGetResponse (memPost (fun _ => none) ['1'] none none none) ['1'])
      ("isSaved".toList) ≠ some (Json.bool false) := by
  intro h
  have h0 : some (Json.bool true) = some (Json.bool false) := Eq.trans (by rfl) h
  simp at h0

/-- C3 counterexample: in the CRM-backed revision, a read for a deal with
no stored properties at all answers the four-field object
`..collateralType:null, itemStatuses:.., isSaved:false, lastSavedAt:null..`,
not the empty object the claim requires. -/
theorem c3_empty_read_counterexample :
    collGetJson (collGet (fun _ => none) "deal_collateral_type".toList
      "collateral_checklist_complete".toList
      "collateral_checklist_state_json".toList
      "deal_collateral_state_json".toList) ≠ Json.obj [] := by
  intro h
  have h0 : Json.obj [("collateralType".toList, Json.null),
      ("itemStatuses".toList, Json.obj []),
      ("isSaved".toList, Json.bool false),
      ("lastSavedAt".toList, Json.null)] = Json.obj [] :=
    Eq.trans (by rfl) h
  simp at h0

/-- C3 (amended): with no prior saved state, the in-memory revision's read
answers the empty object, while the CRM-backed revision's read answers
the four-field object with null collateral type, empty item statuses,
`isSaved = false` and null `lastSavedAt`. -/
theorem c3_unknown_deal_read (memStore : List Char → Option MemEntry)
    (dealId : List Char) (hmem : memStore dealId = none)
    (store : List Char → Option PVal) (ctp cpp primary alt : List Char)
    (h1 : store primary = none) (h2 : store alt = none)
    (h3 : store ctp = none) (h4 : store cpp = none) :
    memGetResponse memStore dealId = Json.obj [] ∧
    collGetJson (collGet store ctp cpp primary alt) =
      Json.obj [("collateralType".toList, Json.null),
                ("itemStatuses".toList, Json.obj []),
                ("isSaved".toList, Json.bool false),
                ("lastSavedAt".toList, Json.null)] := by
  constructor
  · unfold memGetResponse
    rw [hmem]
  · have hfetch : ∀ (names : List (List Char)) (p : List Char), store p = none →
        fetchDealProperties store names p = none := by
      intro names p hp
      unfold fetchDealProperties
      split <;> [exact hp; rfl]
    unfold collGet collGetJson
    simp only [hfetch [ctp, cpp, primary] primary h1]
    split <;>
      simp [hfetch [ctp, cpp, primary] primary h1,
        hfetch [ctp, cpp, primary] ctp h3, hfetch [ctp, cpp, primary] cpp h4,
        hfetch [ctp, cpp, alt] alt h2, hfetch [ctp, cpp, alt] ctp h3,
        hfetch [ctp, cpp, alt] cpp h4,
        jsGet, jsOrElse, jsOrOpt, isSavedOf, safeParseStateJson, rawBlank]

/-- C3 witness: both revisions evaluated on entirely empty stores with the
default property names. -/
theorem c3_unknown_deal_read_witness :
    memGetResponse (fun _ => none) ['1'] = Json.obj [] ∧
    collGetJson (collGet (fun _ => none) "deal_collateral_type".toList
      "collateral_checklist_complete".toList
      "collateral_checklist_state_json".toList
      "deal_collateral_state_json".toList) =
      Json.obj [("collateralType".toList, Json.null),
                ("itemStatuses".toList, Json.obj []),
                ("isSaved".toList, Json.bool false),
                ("lastSavedAt".toList, Json.null)] :=
  c3_unknown_deal_read (fun _ => none) ['1'] rfl (fun _ => none) _ _ _ _ rfl rfl rfl rfl

/-- C4: if any one of the four upstream series calls returns a non-2xx
status, the rates endpoint answers 500 and returns no partial result. -/
theorem c4_rates_upstream_failure (r1 r2 r3 r4 : FredResp)
    (h : fredOk r1 = false ∨ fredOk r2 = false ∨ fredOk r3 = false ∨
      fredOk r4 = false) :
    ratesHandler r1 r2 r3 r4 = RatesResp.error500 := by
  unfold ratesHandler
  rcases h with h | h | h | h
  · rw [show fetchLatestFredValue r1 = Except.error () from by
      unfold fetchLatestFredValue; rw [h]; rfl]
  · rw [show fetchLatestFredValue r2 = Except.error () from by
      unfold fetchLatestFredValue; rw [h]; rfl]
    cases fetchLatestFredValue r1 <;> rfl
  · rw [show fetchLatestFredValue r3 = Except.error () from by
      unfold fetchLatestFredValue; rw [h]; rfl]
    cases fetchLatestFredValue r1 <;> cases fetchLatestFredValue r2 <;> rfl
  · rw [show fetchLatestFredValue r4 = Except.error () from by
      unfold fetchLatestFredValue; rw [h]; rfl]
    cases fetchLatestFredValue r1 <;> cases fetchLatestFredValue r2 <;>
      cases fetchLatestFredValue r3 <;> rfl

/-- C4 witness: three healthy series and one 500 response. -/
theorem c4_rates_upstream_failure_witness :
    ratesHandler ⟨200, some [⟨some "5.01".toList⟩]⟩ ⟨500, none⟩
      ⟨200, some [⟨some "4.1".toList⟩]⟩ ⟨200, some [⟨some "4.2".toList⟩]⟩ =
      RatesResp.error500 :=
  c4_rates_upstream_failure _ _ _ _ (Or.inr (Or.inl (by decide)))

theorem fredValueOf_none_iff (r : FredResp) : fredValueOf r = none ↔ badObs r := by
  unfold fredValueOf badObs
  cases hh : (r.observations.getD []).head? with
  | none => simp
  | some obs =>
    cases hv : obs.value with
    | none => simp [hv]
    | some v =>
      by_cases hs : v = ['.']
      · simp [hv, hs]
      · simp [hv, hs]

/-- C5: when all four upstream calls succeed, the endpoint answers the
four extracted values, and a field is null exactly when that series'
most recent observation is missing, null, the sentinel `"."`, or fails
to parse; otherwise it is the parsed value. -/
theorem c5_rates_null_iff (r1 r2 r3 r4 : FredResp)
    (h1 : fredOk r1 = true) (h2 : fredOk r2 = true)
    (h3 : fredOk r3 = true) (h4 : fredOk r4 = true) :
    ratesHandler r1 r2 r3 r4 =
      RatesResp.okBody (fredValueOf r1) (fredValueOf r2)
        (fredValueOf r3) (fredValueOf r4) ∧
    (fredValueOf r1 = none ↔ badObs r1) ∧ (fredValueOf r2 = none ↔ badObs r2) ∧
    (fredValueOf r3 = none ↔ badObs r3) ∧ (fredValueOf r4 = none ↔ badObs r4) := by
  refine ⟨?_, fredValueOf_none_iff r1, fredValueOf_none_iff r2,
    fredValueOf_none_iff r3, fredValueOf_none_iff r4⟩
  unfold ratesHandler fetchLatestFredValue
  rw [if_pos h1, if_pos h2, if_pos h3, if_pos h4]

/-- C5 witness: concrete responses in which exactly the second series
reports the sentinel; that field alone is null. -/
theorem c5_rates_null_iff_witness :
    ratesHandler ⟨200, some [⟨some "5.31".toList⟩]⟩ ⟨200, some [⟨some ".".toList⟩]⟩
        ⟨200, some [⟨some "4.1".toList⟩]⟩ ⟨204, some [⟨some "4.2".toList⟩]⟩ =
      RatesResp.okBody (fredValueOf ⟨200, some [⟨some "5.31".toList⟩]⟩)
        (fredValueOf ⟨200, some [⟨some ".".toList⟩]⟩)
        (fredValueOf ⟨200, some [⟨some "4.1".toList⟩]⟩)
        (fredValueOf ⟨204, some [⟨some "4.2".toList⟩]⟩) ∧
    fredValueOf ⟨200, some [⟨some "5.31".toList⟩]⟩ ≠ none ∧
    fredValueOf ⟨200, some [⟨some ".".toList⟩]⟩ = none ∧
    fredValueOf ⟨200, some [⟨some "4.1".toList⟩]⟩ ≠ none ∧
    fredValueOf ⟨204, some [⟨some "4.2".toList⟩]⟩ ≠ none :=
  ⟨(c5_rates_null_iff _ _ _ _ (by decide) (by decide) (by decide) (by decide)).1,
    by decide, rfl, by decide, by decide⟩

/-- C6 counterexample: an upstream failure that is not a
missing-property rejection, whose text merely contains the word
`property` (a rate-limit message), still triggers the second PATCH: the
retry condition is a substring heuristic, not the semantic cause the
claim states. -/
theorem c6_retry_counterexample :
    (patchWithStatePropertyFallback "collateral_checklist_state_json".toList
        "deal_collateral_state_json".toList
        (fun _ => ⟨false, 429, "rate limit while reading property metadata".toList,
          ErrCat.otherFailure⟩)).2.2 = 2 ∧
    ((fun (_ : List Char) => (⟨false, 429,
        "rate limit while reading property metadata".toList,
        ErrCat.otherFailure⟩ : UpstreamPatchResult))
      "collateral_checklist_state_json".toList).cause ≠ ErrCat.missingProperty := by
  constructor
  · rfl
  · intro h
    exact ErrCat.noConfusion (Eq.trans (by rfl) h)

/-- C6 (amended): the fallback PATCH is attempted at most once, and
exactly when the primary PATCH failed, the alternate property name is
configured and distinct, and the primary failure text contains the
primary property name or the word `property` case-insensitively; when no
retry occurs the primary result is returned under the primary name, and
when it occurs the fallback result is returned under the alternate
name. -/
theorem c6_fallback_retry (primary alt : List Char)
    (patch : List Char → UpstreamPatchResult) :
    ((patchWithStatePropertyFallback primary alt patch).2.2 = 2 ↔
      ((patch primary).ok = false ∧ alt ≠ [] ∧ alt ≠ primary ∧
       retryHeuristic primary (patch primary).text = true)) ∧
    ((patchWithStatePropertyFallback primary alt patch).2.2 = 1 ∨
     (patchWithStatePropertyFallback primary alt patch).2.2 = 2) ∧
    ((patchWithStatePropertyFallback primary alt patch).2.2 = 1 →
      patchWithStatePropertyFallback primary alt patch = (patch primary, primary, 1)) ∧
    ((patchWithStatePropertyFallback primary alt patch).2.2 = 2 →
      patchWithStatePropertyFallback primary alt patch = (patch alt, alt, 2)) := by
  unfold patchWithStatePropertyFallback
  by_cases hok : (patch primary).ok
  · simp [hok]
  · simp only [hok, if_false, Bool.false_eq_true]
    by_cases hcfg : alt ≠ [] ∧ alt ≠ primary
    · rw [if_pos hcfg]
      by_cases hr : retryHeuristic primary (patch primary).text = true
      · simp [hr, hok, hcfg.1, hcfg.2, Bool.eq_false_iff.mpr hok]
      · simp [hr, hok]
    · rw [if_neg hcfg]
      have : ¬(alt ≠ [] ∧ alt ≠ primary) := hcfg
      simp [hok, this]
      intro h1 h2
      exact absurd ⟨h1, h2⟩ hcfg

/-- C6 witness: a genuine missing-property rejection that names the
primary property triggers the retry. -/
theorem c6_fallback_retry_witness :
    (patchWithStatePropertyFallback "collateral_checklist_state_json".toList
        "deal_collateral_state_json".toList
        (fun _ => ⟨false, 400,
          "Property collateral_checklist_state_json does not exist".toList,
          ErrCat.missingProperty⟩)).2.2 = 2 :=
  (c6_fallback_retry _ _ _).1.mpr ⟨rfl, by decide, by decide, by decide⟩

/-- C7: a relay update whose body is absent, or whose `dealId` or
`properties` field is missing, answers 400 and issues no upstream CRM
call, for every upstream oracle. -/
theorem c7_update_missing_fields (patchRes : UpstreamPatchResult)
    (body : Option UpdateBody)
    (h : body = none ∨ ∃ b, body = some b ∧ (b.dealId = none ∨ b.properties = none)) :
    updateDealRates patchRes body = (400, false) := by
  unfold updateDealRates
  rw [if_pos]
  rcases h with h | ⟨b, hb, h⟩
  · rw [h]; rfl
  · rw [hb]
    unfold updateBodyInvalid
    rcases h with h | h <;> simp [h]

/-- C7 witness: a body with a deal id but no properties field. -/
theorem c7_update_missing_fields_witness :
    updateDealRates ⟨true, 200, [], ErrCat.otherFailure⟩
      (some ⟨some ['1'], none⟩) = (400, false) :=
  c7_update_missing_fields _ _ (Or.inr ⟨⟨some ['1'], none⟩, rfl, Or.inr rfl⟩)

/-- C8 counterexample: the in-memory revision PATCHes
`collateral_checklist_complete: true` upstream on every save, with no
completion signal from the caller at all, contradicting the claim that
the complete flag is set only on explicit completion. -/
theorem c8_complete_flag_counterexample :
    lookupLast (memPatchProperties none) ("collateral_checklist_complete".toList) =
      some (PVal.b true) := by
  rfl

theorem lookupLast_eq_none (props : List (List Char × PVal)) (p : List Char)
    (h : ∀ q ∈ props, q.1 ≠ p) : lookupLast props p = none := by
  unfold lookupLast
  rw [List.find?_eq_none.mpr]
  · rfl
  · intro q hq
    simp only [decide_eq_true_eq]
    exact h q (List.mem_reverse.mp hq)

/-- C8 (amended, CRM-backed revision): the complete flag and the
human-facing overall-status property take their completed values exactly
on an explicit `markComplete`; a partial save writes `"false"` into the
complete flag, does not include the overall-status property among the
written properties, and leaves its upstream value unchanged. -/
theorem c8_overall_status_frame (stateProp stateText : List Char)
    (ct : Option (List Char)) (ctp cpp ovp : List Char)
    (store : List Char → Option PVal)
    (hs : ovp ≠ stateProp) (hc : ovp ≠ ctp) (hp : ovp ≠ cpp) :
    (lookupLast (postProperties stateProp stateText ct true ctp cpp ovp) cpp =
        some (PVal.s "true".toList) ∧
     lookupLast (postProperties stateProp stateText ct true ctp cpp ovp) ovp =
        some (PVal.s "Complete".toList)) ∧
    (lookupLast (postProperties stateProp stateText ct false ctp cpp ovp) cpp =
        some (PVal.s "false".toList) ∧
     ovp ∉ (postProperties stateProp stateText ct false ctp cpp ovp).map Prod.fst ∧
     applyPatch store (postProperties stateProp stateText ct false ctp cpp ovp) ovp =
        store ovp) := by
  have hnotin : ovp ∉ (postProperties stateProp stateText ct false ctp cpp ovp).map
      Prod.fst := by
    intro hmem
    rw [List.mem_map] at hmem
    obtain ⟨q, hq, hqe⟩ := hmem
    unfold postProperties at hq
    rw [List.mem_append] at hq
    rcases hq with hq | hq
    · rw [List.mem_append] at hq
      rcases hq with hq | hq
      · rw [List.mem_singleton] at hq
        rw [hq] at hqe
        simp at hqe
        exact hs hqe.symm
      · rcases ct with _ | s
        · simp at hq
        · by_cases he : s.isEmpty
          · simp [he] at hq
          · simp [he] at hq
            rw [hq] at hqe
            simp at hqe
            exact hc hqe.symm
    · simp at hq
      rw [hq] at hqe
      simp at hqe
      exact hp hqe.symm
  refine ⟨⟨?_, ?_⟩, lookupLast_postProps_complete_false _ _ _ _ _ _, hnotin, ?_⟩
  · unfold lookupLast postProperties
    rw [show (if (true : Bool) then
        [(cpp, PVal.s "true".toList), (ovp, PVal.s "Complete".toList)]
      else [(cpp, PVal.s "false".toList)]) =
        [(cpp, PVal.s "true".toList), (ovp, PVal.s "Complete".toList)] from rfl]
    rw [List.reverse_append, List.reverse_append]
    rw [show ([(cpp, PVal.s "true".toList), (ovp, PVal.s "Complete".toList)]  :
      List (List Char × PVal)).reverse =
      [(ovp, PVal.s "Complete".toList), (cpp, PVal.s "true".toList)] from by simp]
    rw [List.cons_append, List.cons_append]
    rw [List.find?_cons_of_neg _ (by
      simp only [decide_eq_true_eq]
      exact hp.symm ∘ Eq.symm)]
    rw [List.find?_cons_of_pos _ (by simp)]
    rfl
  · unfold lookupLast postProperties
    rw [show (if (true : Bool) then
        [(cpp, PVal.s "true".toList), (ovp, PVal.s "Complete".toList)]
      else [(cpp, PVal.s "false".toList)]) =
        [(cpp, PVal.s "true".toList), (ovp, PVal.s "Complete".toList)] from rfl]
    rw [List.reverse_append, List.reverse_append]
    rw [show ([(cpp, PVal.s "true".toList), (ovp, PVal.s "Complete".toList)]  :
      List (List Char × PVal)).reverse =
      [(ovp, PVal.s "Complete".toList), (cpp, PVal.s "true".toList)] from by simp]
    rw [List.cons_append]
    rw [List.find?_cons_of_pos _ (by simp)]
    rfl
  · unfold applyPatch
    rw [lookupLast_eq_none _ _ (by
      intro q hq hqp
      exact hnotin (List.mem_map.mpr ⟨q, hq, hqp⟩))]

/-- C8 witness: the default deployment property names are pairwise
distinct, so the partial-save frame condition holds there. -/
theorem c8_overall_status_frame_witness :
    lookupLast (postProperties "collateral_checklist_state_json".toList ['x'] none
        false "deal_collateral_type".toList "collateral_checklist_complete".toList
        "deal_collateral_dropdown".toList) "collateral_checklist_complete".toList =
      some (PVal.s "false".toList) ∧
    "deal_collateral_dropdown".toList ∉
      (postProperties "collateral_checklist_state_json".toList ['x'] none false
        "deal_collateral_type".toList "collateral_checklist_complete".toList
        "deal_collateral_dropdown".toList).map Prod.fst ∧
    applyPatch (fun _ => none)
      (postProperties "collateral_checklist_state_json".toList ['x'] none false
        "deal_collateral_type".toList "collateral_checklist_complete".toList
        "deal_collateral_dropdown".toList) "deal_collateral_dropdown".toList =
      (fun (_ : List Char) => (none : Option PVal)) "deal_collateral_dropdown".toList :=
  (c8_overall_status_frame "collateral_checklist_state_json".toList ['x'] none
    "deal_collateral_type".toList "collateral_checklist_complete".toList
    "deal_collateral_dropdown".toList (fun _ => none)
    (by decide) (by decide) (by decide)).2

/-- C9: the Lean embedding of `safeParseStateJson` is a total function
(never throwing, by construction); it returns null for every non-string
input, for every string that trims to nothing, and for every text that
fails JSON parsing both as-is and after tag-stripping plus
entity-decoding, and it returns a parsed value only when one of the two
parse attempts succeeds. -/
theorem c9_safeParse_characterization (raw : Option Json) :
    ((∀ s, raw ≠ some (Json.str s)) → safeParseStateJson raw = none) ∧
    (∀ s, raw = some (Json.str s) → jsTrim s = [] → safeParseStateJson raw = none) ∧
    (∀ s, raw = some (Json.str s) → jsTrim s ≠ [] →
      jsonParse (jsTrim s) = none →
      jsonParse (jsTrim (decodeHtmlEntities (jsTrim (stripHtmlTags (jsTrim s))))) =
        none →
      safeParseStateJson raw = none) ∧
    (∀ j, safeParseStateJson raw = some j →
      ∃ s, raw = some (Json.str s) ∧
        (jsonParse (jsTrim s) = some j ∨
         (jsonParse (jsTrim s) = none ∧
          jsonParse (jsTrim (decodeHtmlEntities (jsTrim (stripHtmlTags (jsTrim s))))) =
            some j))) := by
  refine ⟨?_, ?_, ?_, ?_⟩
  · intro hns
    match raw with
    | none => rfl
    | some Json.null => rfl
    | some (Json.bool b) => rfl
    | some (Json.num n) => rfl
    | some (Json.str s) => exact absurd rfl (hns s)
    | some (Json.arr xs) => rfl
    | some (Json.obj kvs) => rfl
  · intro s hraw htrim
    subst hraw
    unfold safeParseStateJson
    simp only [htrim]
    rfl
  · intro s hraw htrim h1 h2
    subst hraw
    unfold safeParseStateJson
    simp only [h1, h2]
    rw [if_neg htrim]
  · intro j hj
    rcases hraw : raw with _ | jr
    · rw [hraw] at hj
      exact Option.noConfusion hj
    · rw [hraw] at hj
      match jr, hj with
      | Json.null, hj => exact Option.noConfusion hj
      | Json.bool b, hj => exact Option.noConfusion hj
      | Json.num n, hj => exact Option.noConfusion hj
      | Json.arr xs, hj => exact Option.noConfusion hj
      | Json.obj kvs, hj => exact Option.noConfusion hj
      | Json.str s, hj =>
        refine ⟨s, rfl, ?_⟩
        unfold safeParseStateJson at hj
        simp only [] at hj
        by_cases htrim : jsTrim s = []
        · rw [if_pos htrim] at hj
          exact Option.noConfusion hj
        · rw [if_neg htrim] at hj
          cases hp : jsonParse (jsTrim s) with
          | some v =>
            rw [hp] at hj
            exact Or.inl hj
          | none =>
            rw [hp] at hj
            exact Or.inr ⟨rfl, hj⟩

/-- C9 witness: a non-string input yields null. -/
theorem c9_safeParse_characterization_witness :
    safeParseStateJson (some (Json.num 7)) = none :=
  (c9_safeParse_characterization (some (Json.num 7))).1 (fun _ h => by cases h)

theorem collGet_didSecondFetch (store : List Char → Option PVal)
    (ctp cpp primary alt : List Char) :
    (collGet store ctp cpp primary alt).didSecondFetch =
      (rawBlank (store primary) && !alt.isEmpty && !(alt == primary)) := by
  unfold collGet fetchDealProperties
  simp only []
  rw [if_pos (by simp : primary ∈ [ctp, cpp, primary])]

theorem collGet_rawUsed (store : List Char → Option PVal)
    (ctp cpp primary alt : List Char) :
    (collGet store ctp cpp primary alt).rawUsed =
      (if (rawBlank (store primary) && !alt.isEmpty && !(alt == primary)) = true
       then store alt else store primary) := by
  unfold collGet fetchDealProperties
  simp only []
  have m1 : (alt ∈ [ctp, cpp, alt]) = True := by simp
  have m2 : (primary ∈ [ctp, cpp, primary]) = True := by simp
  simp only [m1, m2, if_true]

/-- C10: on a checklist read the alternate state property is fetched
exactly when the primary raw value is absent or blank and a distinct
alternate name is configured; the second fetch supplies the raw state
that is parsed; and when the primary value is non-blank the response does
not depend on the alternate property's stored value. -/
theorem c10_read_fallback (store : List Char → Option PVal)
    (ctp cpp primary alt : List Char) :
    ((collGet store ctp cpp primary alt).didSecondFetch = true ↔
      (rawBlank (store primary) = true ∧ alt ≠ [] ∧ alt ≠ primary)) ∧
    ((collGet store ctp cpp primary alt).didSecondFetch = true →
      (collGet store ctp cpp primary alt).rawUsed = store alt) ∧
    (∀ store₂ : List Char → Option PVal,
      (∀ p, p ≠ alt → store₂ p = store p) →
      rawBlank (store primary) = false →
      alt ≠ ctp → alt ≠ cpp → alt ≠ primary →
      collGet store₂ ctp cpp primary alt = collGet store ctp cpp primary alt) := by
  refine ⟨?_, ?_, ?_⟩
  · rw [collGet_didSecondFetch]
    simp [Bool.and_eq_true, List.isEmpty_iff, and_assoc]
  · intro h
    rw [collGet_didSecondFetch] at h
    rw [collGet_rawUsed, if_pos h]
  · intro store₂ hagree hblank h1 h2 h3
    have hf1 : fetchDealProperties store₂ [ctp, cpp, primary] =
        fetchDealProperties store [ctp, cpp, primary] := by
      funext p
      unfold fetchDealProperties
      by_cases hpmem : p ∈ [ctp, cpp, primary]
      · rw [if_pos hpmem, if_pos hpmem, hagree p ?_]
        intro he
        subst he
        simp at hpmem
        rcases hpmem with h | h | h
        · exact h1 h
        · exact h2 h
        · exact h3 h
      · rw [if_neg hpmem, if_neg hpmem]
    have hpp : fetchDealProperties store [ctp, cpp, primary] primary =
        store primary := by
      unfold fetchDealProperties
      rw [if_pos (by simp)]
    unfold collGet
    simp only []
    rw [hf1, hpp, hblank]
    simp only [Bool.false_and, Bool.false_eq_true, if_false]

/-- C10 witness: a deal whose primary state property is empty but whose
alternate property holds text triggers the second fetch, and the state is
parsed from the alternate property's value. -/
theorem c10_read_fallback_witness :
    (collGet (fun p => if p = "deal_collateral_state_json".toList
        then some (PVal.s "x".toList) else none)
      "deal_collateral_type".toList "collateral_checklist_complete".toList
      "collateral_checklist_state_json".toList
      "deal_collateral_state_json".toList).didSecondFetch = true ∧
    (collGet (fun p => if p = "deal_collateral_state_json".toList
        then some (PVal.s "x".toList) else none)
      "deal_collateral_type".toList "collateral_checklist_complete".toList
      "collateral_checklist_state_json".toList
      "deal_collateral_state_json".toList).rawUsed = some (PVal.s "x".toList) := by
  have h := c10_read_fallback (fun p => if p = "deal_collateral_state_json".toList
      then some (PVal.s "x".toList) else none)
    "deal_collateral_type".toList "collateral_checklist_complete".toList
    "collateral_checklist_state_json".toList "deal_collateral_state_json".toList
  have hsec := h.1.mpr ⟨by decide, by decide, by decide⟩
  exact ⟨hsec, (h.2.1 hsec).trans (by decide)⟩
